import Mathlib

/-!
Verification development for the sankey-copier trade-copying relay.

The repository ships test harnesses that specify the behavioral contract of
the relay (connection registry, config distribution, topic-filtered signal
routing, delay-aware execution policy with pending-order fallback, and the
MessagePack wire encoding).  The implementation files themselves are not part
of the repository, so every definition below is a shallow embedding modelled
from the specification document (spec.md) and the observable behavior pinned
down by the test files under src/tests.

The file is organised as: all definitions first, then all theorems.
-/

namespace SankeyCopier

/-! ## Core enumerations of the data model -/

/-- Modelled from the spec: order_type of a TradeSignal, Buy or Sell
(spec section 3, "TradeSignal"). The implementation is not in the
repository. -/
inductive OrderType where
  | Buy
  | Sell
deriving DecidableEq, Repr

/-- Modelled from the spec: the action field of a TradeSignal
(spec section 3). The implementation is not in the repository. -/
inductive TradeAction where
  | Open
  | Modify
  | Close
deriving DecidableEq, Repr

/-- Modelled from the spec: the decision of the ExecutionPolicyEngine for an
incoming Open signal: execute at market, create a pending order, or skip
(spec section 4.4). The implementation is not in the repository. -/
inductive Decision where
  | Execute
  | Pending
  | Skip
deriving DecidableEq, Repr

/-- Modelled from the spec: derived pending order types
(spec section 4.4). The implementation is not in the repository. -/
inductive PendingType where
  | BuyLimit
  | BuyStop
  | SellLimit
  | SellStop
deriving DecidableEq, Repr

/-- Modelled from the spec: status of a PendingOrderRecord
(spec section 3). The implementation is not in the repository. -/
inductive PendingStatus where
  | Active
  | Filled
  | Cancelled
  | Expired
deriving DecidableEq, Repr

/-! ## Signal age and the execution decision (spec section 4.4) -/

/-- Modelled from the spec: the age of a signal as seen by the
ExecutionPolicyEngine.  `known ms` is `now - signal.timestamp` in
milliseconds; `unknown` stands for a malformed or missing timestamp, which
the spec says is treated as maximal delay (spec section 4.4). The
implementation is not in the repository. -/
inductive Delay where
  | known (ms : Nat)
  | unknown
deriving DecidableEq, Repr

/-- Whether a delay exceeds the `max_delay_ms` threshold.  An `unknown`
delay is maximal: it exceeds every threshold. -/
def Delay.exceeds : Delay → Nat → Bool
  | .known ms, maxDelayMs => decide (maxDelayMs < ms)
  | .unknown, _ => true

/-- Modelled from the spec: `delay_ms = now - signal.timestamp`; a missing
or malformed timestamp (here: `none`, the result of a failed parse) yields
the maximal delay (spec section 4.4). Times are Nat milliseconds; Nat
subtraction truncates a timestamp in the future to delay 0. -/
def signalDelay (now : Nat) (parsedTimestamp : Option Nat) : Delay :=
  match parsedTimestamp with
  | some t => .known (now - t)
  | none => .unknown

/-- Modelled from the spec: the ExecutionPolicyEngine decision for an Open
signal, as a function of the signal age, the `max_delay_ms` threshold
(default 5000) and the pending-fallback switch (spec sections 4.4 and 8).
The implementation is not in the repository. -/
def decideOpen (d : Delay) (maxDelayMs : Nat) (fallbackEnabled : Bool) : Decision :=
  if d.exceeds maxDelayMs then
    if fallbackEnabled then .Pending else .Skip
  else
    .Execute

/-- Modelled from the spec: derivation of the pending order type from the
order type, the signal's entry price and the slave's current market price:
Buy and entry below current gives BuyLimit, otherwise BuyStop; Sell and
entry above current gives SellLimit, otherwise SellStop; price equality
resolves to the Stop side (spec sections 4.4 and 8). Prices are rationals.
The implementation is not in the repository. -/
def derivePendingType (orderType : OrderType) (entryPrice currentPrice : Rat) : PendingType :=
  match orderType with
  | .Buy => if entryPrice < currentPrice then .BuyLimit else .BuyStop
  | .Sell => if currentPrice < entryPrice then .SellLimit else .SellStop

/-! ## Engine state: live positions and pending order records -/

/-- Modelled from the spec: a live position opened on a slave for a master
ticket (spec sections 4.4 and 4.5). The implementation is not in the
repository. -/
structure Position where
  slaveAccount : String
  masterTicket : Nat
deriving DecidableEq, Repr

/-- Modelled from the spec: PendingOrderRecord, keyed by
(slave_account, master_ticket), holding the derived pending order type, the
entry price, creation time and status (spec section 3). The implementation
is not in the repository. -/
structure PendingRecord where
  slaveAccount : String
  masterTicket : Nat
  orderType : PendingType
  entryPrice : Rat
  createdAt : Nat
  status : PendingStatus
deriving DecidableEq, Repr

/-- Modelled from the spec: the state the ExecutionPolicyEngine and
PendingOrderTracker maintain per slave: live positions and pending order
records (spec sections 4.4 and 4.5). The implementation is not in the
repository. -/
structure EngineState where
  positions : List Position
  pendings : List PendingRecord
deriving DecidableEq, Repr

/-- Modelled from the spec: the operations of the abstract broker
capability invoked by the engine (spec section 6). The implementation is
not in the repository. -/
inductive BrokerOp where
  | placeMarket (slave : String) (ticket : Nat)
  | placePending (r : PendingRecord)
  | closePosition (p : Position)
  | cancelPending (r : PendingRecord)
deriving DecidableEq, Repr

/-- Modelled from the spec: the error taxonomy of the relay
(spec section 7). The implementation is not in the repository. -/
inductive RelayError where
  | UnknownAccount
  | StaleConfig
  | SignalTooOld
  | BrokerRejected
  | MalformedMessage
deriving DecidableEq, Repr

/-- Modelled from the spec: the fields of an Open TradeSignal that the
delay policy consumes (spec section 3). `timestamp` is the parse result of
the wire timestamp; `none` means malformed or missing. -/
structure OpenSignal where
  ticket : Nat
  orderType : OrderType
  openPrice : Rat
  timestamp : Option Nat
deriving DecidableEq, Repr

/-- Modelled from the spec: processing of an Open signal by the
ExecutionPolicyEngine: within the threshold it places a market order; past
the threshold with fallback enabled it derives a pending order type from
the entry and current price and creates a PendingOrderRecord; past the
threshold with fallback disabled it skips, placing no order and creating
no record (spec section 4.4). The implementation is not in the
repository. -/
def processOpen (st : EngineState) (slave : String) (sig : OpenSignal)
    (now maxDelayMs : Nat) (fallbackEnabled : Bool) (currentPrice : Rat) :
    EngineState × List BrokerOp :=
  match decideOpen (signalDelay now sig.timestamp) maxDelayMs fallbackEnabled with
  | .Execute =>
      ({ st with positions := ⟨slave, sig.ticket⟩ :: st.positions },
       [.placeMarket slave sig.ticket])
  | .Pending =>
      let record : PendingRecord :=
        ⟨slave, sig.ticket, derivePendingType sig.orderType sig.openPrice currentPrice,
         sig.openPrice, now, .Active⟩
      ({ st with pendings := record :: st.pendings }, [.placePending record])
  | .Skip => (st, [])

/-- Find the live position of a slave for a master ticket. -/
def findPosition (st : EngineState) (slave : String) (ticket : Nat) : Option Position :=
  st.positions.find? (fun p => p.slaveAccount == slave && p.masterTicket == ticket)

/-- Find the active PendingOrderRecord of a slave for a master ticket. -/
def findActivePending (st : EngineState) (slave : String) (ticket : Nat) : Option PendingRecord :=
  st.pendings.find? (fun r =>
    r.slaveAccount == slave && r.masterTicket == ticket && r.status == .Active)

/-- Remove the live position of a slave for a master ticket. -/
def removePosition (st : EngineState) (slave : String) (ticket : Nat) : EngineState :=
  { st with positions :=
      st.positions.filter (fun q => !(q.slaveAccount == slave && q.masterTicket == ticket)) }

/-- Remove the PendingOrderRecord of a slave for a master ticket. -/
def removePending (st : EngineState) (slave : String) (ticket : Nat) : EngineState :=
  { st with pendings :=
      st.pendings.filter (fun q => !(q.slaveAccount == slave && q.masterTicket == ticket)) }

/-- Modelled from the spec: the three possible outcomes of handling a Close
signal (spec section 4.4). The implementation is not in the repository. -/
inductive CloseOutcome where
  | ClosedLive
  | CancelledPending
  | NoOp
deriving DecidableEq, Repr

/-- Modelled from the spec: handling of a Close signal by the
ExecutionPolicyEngine: close a live position if one exists for the master
ticket; otherwise cancel an active pending order record, removing the
record, via the broker cancel capability and without invoking the broker
close; otherwise a no-op, which is never an error (spec section 4.4). The
implementation is not in the repository. -/
def handleClose (st : EngineState) (slave : String) (ticket : Nat) :
    Except RelayError (CloseOutcome × EngineState × List BrokerOp) :=
  match findPosition st slave ticket with
  | some p => .ok (.ClosedLive, removePosition st slave ticket, [.closePosition p])
  | none =>
    match findActivePending st slave ticket with
    | some r => .ok (.CancelledPending, removePending st slave ticket, [.cancelPending r])
    | none => .ok (.NoOp, st, [])

/-! ## Connection registry (spec section 4.1) -/

/-- Modelled from the spec: ea_type of a terminal (spec section 3). -/
inductive EAType where
  | Master
  | Slave
deriving DecidableEq, Repr

/-- Modelled from the spec: the status of a Connection (spec section 3). -/
inductive ConnStatus where
  | Connected
  | Stale
  | Disconnected
deriving DecidableEq, Repr

/-- Modelled from the spec: a Connection entry of the registry, keyed by
account_id (spec section 3). The implementation is not in the
repository. -/
structure Connection where
  accountId : String
  eaType : EAType
  platform : String
  balance : Rat
  equity : Rat
  openPositions : Nat
  lastHeartbeat : Nat
  status : ConnStatus
deriving DecidableEq, Repr

/-- The connection table, keyed by account_id. -/
abbrev Registry := List Connection

/-- Look up the connection of an account. -/
def lookupConn (reg : Registry) (acct : String) : Option Connection :=
  reg.find? (fun c => c.accountId == acct)

/-- Modelled from the spec: the fields a Heartbeat message carries
(spec section 6). -/
structure HeartbeatFields where
  accountId : String
  balance : Rat
  equity : Rat
  openPositions : Nat
  timestamp : Nat
deriving DecidableEq, Repr

/-- The update a heartbeat applies to an existing connection: balance,
equity, open_positions and last_heartbeat; everything else is kept. -/
def applyHeartbeat (msg : HeartbeatFields) (c : Connection) : Connection :=
  { c with balance := msg.balance, equity := msg.equity,
           openPositions := msg.openPositions, lastHeartbeat := msg.timestamp }

/-- Modelled from the spec: `heartbeat(msg)` updates
balance/equity/open_positions/last_heartbeat of an existing account and
fails with UnknownAccount, leaving the table unchanged, when the account
was never registered (spec sections 4.1 and 7, scenario C). The
implementation is not in the repository.  Returns the possible error
together with the resulting table. -/
def heartbeatStep (reg : Registry) (msg : HeartbeatFields) :
    Option RelayError × Registry :=
  match lookupConn reg msg.accountId with
  | none => (some .UnknownAccount, reg)
  | some _ =>
      (none,
       reg.map (fun c => if c.accountId == msg.accountId then applyHeartbeat msg c else c))

/-! ## Config versioning at the receiver (spec section 4.2) -/

/-- Modelled from the spec: the per-slave copy configuration carried by a
Config message, with its monotonically increasing config_version
(spec section 3). The implementation is not in the repository. -/
structure SlaveConfig where
  configVersion : Nat
  enabled : Bool
  lotMultiplier : Rat
  reverseTrade : Bool
deriving DecidableEq, Repr

/-- The config_version last applied by a receiver; `none` (no config yet)
counts as version 0, below every distributed version, which start at 1. -/
def appliedVersion : Option SlaveConfig → Nat
  | none => 0
  | some c => c.configVersion

/-- Modelled from the spec: the receiver's ordering contract: a Config
message whose config_version is not strictly greater than the last applied
one is discarded; otherwise it becomes the effective config
(spec section 4.2). The implementation is not in the repository. -/
def applyConfig (st : Option SlaveConfig) (c : SlaveConfig) : Option SlaveConfig :=
  if appliedVersion st < c.configVersion then some c else st

/-- Deliver a whole sequence of Config messages in order. -/
def applyConfigs (st : Option SlaveConfig) (l : List SlaveConfig) : Option SlaveConfig :=
  l.foldl applyConfig st

/-! ## Topic-filtered distribution channel (spec sections 4.3 and 6) -/

/-- Modelled from the spec: topic matching of the distribution channel.  A
subscription matches a published topic exactly when the subscription bytes
are an initial run of the topic bytes, as on the underlying channel used by
the tests (src/tests/test_zmq_communication.py); the empty subscription
therefore matches every topic.  Topics are byte strings. The implementation
is not in the repository. -/
def matchesTopic (sub topic : List Nat) : Bool :=
  topic.take sub.length == sub

/-- A message published on the distribution channel: topic and payload. -/
structure PubMessage where
  topic : List Nat
  payload : List Nat
deriving DecidableEq, Repr

/-- Modelled from the spec: a subscriber receives a message exactly when
one of its current subscriptions matches the message topic
(spec section 4.3). The implementation is not in the repository. -/
def deliveredTo (subs : List (List Nat)) (m : PubMessage) : Bool :=
  subs.any (fun s => matchesTopic s m.topic)

/-- The sublist of published messages a subscriber with subscription set
`subs` receives, in publication order. -/
def receivedBy (subs : List (List Nat)) (published : List PubMessage) : List PubMessage :=
  published.filter (deliveredTo subs)

/-! ## MessagePack byte-level primitives (spec section 6)

The wire form is the binary, self-describing map encoding of MessagePack.
Bytes are modelled as natural numbers below 256; multi-byte integers are
big-endian. -/

/-- Write `k` big-endian bytes of `n`. -/
def writeBE : Nat → Nat → List Nat
  | 0, _ => []
  | k + 1, n => n / 256 ^ k :: writeBE k (n % 256 ^ k)

/-- Read `k` big-endian bytes into the accumulator. -/
def readBE : Nat → Nat → List Nat → Option (Nat × List Nat)
  | 0, acc, bs => some (acc, bs)
  | _ + 1, _, [] => none
  | k + 1, acc, b :: bs => readBE k (acc * 256 + b) bs

/-- Read `k` raw bytes. -/
def readBytes : Nat → List Nat → Option (List Nat × List Nat)
  | 0, bs => some ([], bs)
  | _ + 1, [] => none
  | k + 1, b :: bs =>
    match readBytes k bs with
    | some (s, rest) => some (b :: s, rest)
    | none => none

/-- Modelled from the spec: a MessagePack value: nil, boolean, unsigned
integer, float64 (carried as its raw 8-byte pattern, since only the bytes
cross the wire), raw string, array, or string-keyed map (spec section 6).
The implementation is not in the repository. -/
inductive MPValue where
  | nil
  | mbool (b : Bool)
  | mnat (n : Nat)
  | mfloat (bits : Nat)
  | mstr (s : List Nat)
  | arr (vs : List MPValue)
  | mmap (kvs : List (List Nat × MPValue))

/-- Minimal MessagePack encoding of an unsigned integer
(positive fixint, uint 8, uint 16, uint 32 or uint 64). -/
def encodeNat (n : Nat) : List Nat :=
  if n < 128 then [n]
  else if n < 256 then [204, n]
  else if n < 65536 then 205 :: writeBE 2 n
  else if n < 4294967296 then 206 :: writeBE 4 n
  else 207 :: writeBE 8 n

/-- MessagePack string header (fixstr, str 8, str 16 or str 32). -/
def strHeader (len : Nat) : List Nat :=
  if len < 32 then [160 + len]
  else if len < 256 then [217, len]
  else if len < 65536 then 218 :: writeBE 2 len
  else 219 :: writeBE 4 len

/-- Header plus raw bytes of a string. -/
def encodeStrBytes (s : List Nat) : List Nat := strHeader s.length ++ s

/-- MessagePack array header (fixarray, array 16 or array 32). -/
def arrHeader (len : Nat) : List Nat :=
  if len < 16 then [144 + len]
  else if len < 65536 then 220 :: writeBE 2 len
  else 221 :: writeBE 4 len

/-- MessagePack map header (fixmap, map 16 or map 32). -/
def mapHeader (len : Nat) : List Nat :=
  if len < 16 then [128 + len]
  else if len < 65536 then 222 :: writeBE 2 len
  else 223 :: writeBE 4 len

mutual

/-- Modelled from the spec: the MessagePack encoder for a value
(spec section 6: binary, self-describing map encoding). -/
def encodeVal : MPValue → List Nat
  | .nil => [192]
  | .mbool false => [194]
  | .mbool true => [195]
  | .mnat n => encodeNat n
  | .mfloat bits => 203 :: writeBE 8 bits
  | .mstr s => encodeStrBytes s
  | .arr vs => arrHeader vs.length ++ encodeList vs
  | .mmap kvs => mapHeader kvs.length ++ encodeKVList kvs

/-- Encode the elements of an array in order. -/
def encodeList : List MPValue → List Nat
  | [] => []
  | v :: vs => encodeVal v ++ encodeList vs

/-- Encode the key-value pairs of a map in order; keys are strings. -/
def encodeKVList : List (List Nat × MPValue) → List Nat
  | [] => []
  | (k, v) :: kvs => encodeStrBytes k ++ encodeVal v ++ encodeKVList kvs

end

/-- Wellformedness of a wire string: representable length, bytes below 256. -/
def wfStrB (s : List Nat) : Bool :=
  decide (s.length < 4294967296) && s.all (fun b => decide (b < 256))

mutual

/-- Wellformedness of a MessagePack value: integers and float patterns fit
in 64 bits, strings, arrays and maps have representable lengths. -/
def wfVal : MPValue → Bool
  | .nil => true
  | .mbool _ => true
  | .mnat n => decide (n < 18446744073709551616)
  | .mfloat bits => decide (bits < 18446744073709551616)
  | .mstr s => wfStrB s
  | .arr vs => decide (vs.length < 4294967296) && wfList vs
  | .mmap kvs => decide (kvs.length < 4294967296) && wfKVList kvs

/-- Wellformedness of a list of values. -/
def wfList : List MPValue → Bool
  | [] => true
  | v :: vs => wfVal v && wfList vs

/-- Wellformedness of the key-value pairs of a map. -/
def wfKVList : List (List Nat × MPValue) → Bool
  | [] => true
  | (k, v) :: kvs => wfStrB k && wfVal v && wfKVList kvs

end

/-- Decode `n` consecutive values with the given element decoder. -/
def decodeListWith (dec : List Nat → Option (MPValue × List Nat)) :
    Nat → List Nat → Option (List MPValue × List Nat)
  | 0, bs => some ([], bs)
  | n + 1, bs =>
    match dec bs with
    | some (v, r) =>
      match decodeListWith dec n r with
      | some (vs, r2) => some (v :: vs, r2)
      | none => none
    | none => none

/-- Decode `n` consecutive key-value pairs with the given decoder; each key
must decode to a string. -/
def decodeKVWith (dec : List Nat → Option (MPValue × List Nat)) :
    Nat → List Nat → Option (List (List Nat × MPValue) × List Nat)
  | 0, bs => some ([], bs)
  | n + 1, bs =>
    match dec bs with
    | some (.mstr k, r) =>
      match dec r with
      | some (v, r2) =>
        match decodeKVWith dec n r2 with
        | some (kvs, r3) => some ((k, v) :: kvs, r3)
        | none => none
      | none => none
    | _ => none

/-- Modelled from the spec: the MessagePack decoder, fuelled by a bound on
the nesting depth; one fuel unit is spent per nesting level, and the fuel
is instantiated from the byte length of the input, which always
suffices because every level consumes at least one byte
(spec sections 6 and 7: MalformedMessage, a decode failure, yields `none`).
The implementation is not in the repository. -/
def decodeVal : Nat → List Nat → Option (MPValue × List Nat)
  | 0, _ => none
  | _ + 1, [] => none
  | fuel + 1, b :: bs =>
    if b < 128 then some (.mnat b, bs)
    else if b < 144 then
      match decodeKVWith (decodeVal fuel) (b - 128) bs with
      | some (kvs, r) => some (.mmap kvs, r)
      | none => none
    else if b < 160 then
      match decodeListWith (decodeVal fuel) (b - 144) bs with
      | some (vs, r) => some (.arr vs, r)
      | none => none
    else if b < 192 then
      match readBytes (b - 160) bs with
      | some (s, r) => some (.mstr s, r)
      | none => none
    else if b = 192 then some (.nil, bs)
    else if b = 194 then some (.mbool false, bs)
    else if b = 195 then some (.mbool true, bs)
    else if b = 203 then
      match readBE 8 0 bs with
      | some (n, r) => some (.mfloat n, r)
      | none => none
    else if b = 204 then
      match bs with
      | n :: r => some (.mnat n, r)
      | [] => none
    else if b = 205 then
      match readBE 2 0 bs with
      | some (n, r) => some (.mnat n, r)
      | none => none
    else if b = 206 then
      match readBE 4 0 bs with
      | some (n, r) => some (.mnat n, r)
      | none => none
    else if b = 207 then
      match readBE 8 0 bs with
      | some (n, r) => some (.mnat n, r)
      | none => none
    else if b = 217 then
      match bs with
      | n :: r =>
        match readBytes n r with
        | some (s, r2) => some (.mstr s, r2)
        | none => none
      | [] => none
    else if b = 218 then
      match readBE 2 0 bs with
      | some (n, r) =>
        match readBytes n r with
        | some (s, r2) => some (.mstr s, r2)
        | none => none
      | none => none
    else if b = 219 then
      match readBE 4 0 bs with
      | some (n, r) =>
        match readBytes n r with
        | some (s, r2) => some (.mstr s, r2)
        | none => none
      | none => none
    else if b = 220 then
      match readBE 2 0 bs with
      | some (n, r) =>
        match decodeListWith (decodeVal fuel) n r with
        | some (vs, r2) => some (.arr vs, r2)
        | none => none
      | none => none
    else if b = 221 then
      match readBE 4 0 bs with
      | some (n, r) =>
        match decodeListWith (decodeVal fuel) n r with
        | some (vs, r2) => some (.arr vs, r2)
        | none => none
      | none => none
    else if b = 222 then
      match readBE 2 0 bs with
      | some (n, r) =>
        match decodeKVWith (decodeVal fuel) n r with
        | some (kvs, r2) => some (.mmap kvs, r2)
        | none => none
      | none => none
    else if b = 223 then
      match readBE 4 0 bs with
      | some (n, r) =>
        match decodeKVWith (decodeVal fuel) n r with
        | some (kvs, r2) => some (.mmap kvs, r2)
        | none => none
      | none => none
    else none

/-! ## Wire messages (spec section 6)

Strings on the wire are byte strings; ASCII literals are written through
`asciiBytes`.  Float-valued fields carry the raw 8-byte pattern of the
float64, since only those bytes cross the wire. -/

/-- The bytes of an ASCII string literal. -/
def asciiBytes (s : String) : List Nat := s.toList.map Char.toNat

/-- Wire form of ea_type. -/
inductive WEAType where
  | Master
  | Slave
deriving DecidableEq, Repr

/-- Wire form of order_type. -/
inductive WOrderType where
  | Buy
  | Sell
deriving DecidableEq, Repr

/-- Wire form of the TradeSignal action. -/
inductive WAction where
  | Open
  | Modify
  | Close
deriving DecidableEq, Repr

/-- Wire string of an ea_type. -/
def eaTypeStr : WEAType → List Nat
  | .Master => asciiBytes "Master"
  | .Slave => asciiBytes "Slave"

/-- Parse an ea_type string. -/
def parseEAType (s : List Nat) : Option WEAType :=
  if s == asciiBytes "Master" then some .Master
  else if s == asciiBytes "Slave" then some .Slave
  else none

/-- Wire string of an order_type. -/
def orderTypeStr : WOrderType → List Nat
  | .Buy => asciiBytes "Buy"
  | .Sell => asciiBytes "Sell"

/-- Parse an order_type string. -/
def parseOrderType (s : List Nat) : Option WOrderType :=
  if s == asciiBytes "Buy" then some .Buy
  else if s == asciiBytes "Sell" then some .Sell
  else none

/-- Wire string of an action. -/
def actionStr : WAction → List Nat
  | .Open => asciiBytes "Open"
  | .Modify => asciiBytes "Modify"
  | .Close => asciiBytes "Close"

/-- Parse an action string. -/
def parseAction (s : List Nat) : Option WAction :=
  if s == asciiBytes "Open" then some .Open
  else if s == asciiBytes "Modify" then some .Modify
  else if s == asciiBytes "Close" then some .Close
  else none

/-- A single key-value entry of a wire map. -/
def entry (k : String) (v : MPValue) : List (List Nat × MPValue) := [(asciiBytes k, v)]

/-- An optional entry: an absent optional field is omitted from the wire
form entirely (spec section 6). -/
def optEntry (k : String) : Option MPValue → List (List Nat × MPValue)
  | none => []
  | some v => [(asciiBytes k, v)]

/-- Look up the first value bound to a key in a wire map. -/
def lookupKey (kvs : List (List Nat × MPValue)) (k : List Nat) : Option MPValue :=
  (kvs.find? (fun kv => kv.1 == k)).map (fun kv => kv.2)

/-- Require a string value. -/
def asStr : Option MPValue → Option (List Nat)
  | some (.mstr s) => some s
  | _ => none

/-- Require an integer value. -/
def asNat : Option MPValue → Option Nat
  | some (.mnat n) => some n
  | _ => none

/-- Require a float value (its raw byte pattern). -/
def asFloat : Option MPValue → Option Nat
  | some (.mfloat b) => some b
  | _ => none

/-- Require a boolean value. -/
def asBool : Option MPValue → Option Bool
  | some (.mbool b) => some b
  | _ => none

/-- Optional string field: absent is fine, a non-string value is a failure. -/
def asOptStr : Option MPValue → Option (Option (List Nat))
  | none => some none
  | some (.mstr s) => some (some s)
  | _ => none

/-- Optional integer field. -/
def asOptNat : Option MPValue → Option (Option Nat)
  | none => some none
  | some (.mnat n) => some (some n)
  | _ => none

/-- Optional float field. -/
def asOptFloat : Option MPValue → Option (Option Nat)
  | none => some none
  | some (.mfloat b) => some (some b)
  | _ => none

/-- Modelled from the spec: the Register message
(spec section 6 and src/tests/test_messagepack.py). -/
structure RegisterMsg where
  accountId : List Nat
  eaType : WEAType
  platform : List Nat
  accountNumber : Nat
  broker : List Nat
  accountName : List Nat
  server : List Nat
  balance : Nat
  equity : Nat
  currency : List Nat
  leverage : Nat
  timestamp : List Nat
deriving DecidableEq, Repr

/-- The wire map of a Register message, in the field order of the tests. -/
def registerKVs (m : RegisterMsg) : List (List Nat × MPValue) :=
  entry "message_type" (.mstr (asciiBytes "Register")) ++
  entry "account_id" (.mstr m.accountId) ++
  entry "ea_type" (.mstr (eaTypeStr m.eaType)) ++
  entry "platform" (.mstr m.platform) ++
  entry "account_number" (.mnat m.accountNumber) ++
  entry "broker" (.mstr m.broker) ++
  entry "account_name" (.mstr m.accountName) ++
  entry "server" (.mstr m.server) ++
  entry "balance" (.mfloat m.balance) ++
  entry "equity" (.mfloat m.equity) ++
  entry "currency" (.mstr m.currency) ++
  entry "leverage" (.mnat m.leverage) ++
  entry "timestamp" (.mstr m.timestamp)

/-- Parse a Register message from a wire map. -/
def registerFromMap (kvs : List (List Nat × MPValue)) : Option RegisterMsg := do
  let accountId ← asStr (lookupKey kvs (asciiBytes "account_id"))
  let eaTypeS ← asStr (lookupKey kvs (asciiBytes "ea_type"))
  let eaType ← parseEAType eaTypeS
  let platform ← asStr (lookupKey kvs (asciiBytes "platform"))
  let accountNumber ← asNat (lookupKey kvs (asciiBytes "account_number"))
  let broker ← asStr (lookupKey kvs (asciiBytes "broker"))
  let accountName ← asStr (lookupKey kvs (asciiBytes "account_name"))
  let server ← asStr (lookupKey kvs (asciiBytes "server"))
  let balance ← asFloat (lookupKey kvs (asciiBytes "balance"))
  let equity ← asFloat (lookupKey kvs (asciiBytes "equity"))
  let currency ← asStr (lookupKey kvs (asciiBytes "currency"))
  let leverage ← asNat (lookupKey kvs (asciiBytes "leverage"))
  let timestamp ← asStr (lookupKey kvs (asciiBytes "timestamp"))
  pure ⟨accountId, eaType, platform, accountNumber, broker, accountName, server,
        balance, equity, currency, leverage, timestamp⟩

/-- Modelled from the spec: the Unregister message (spec section 6). -/
structure UnregisterMsg where
  accountId : List Nat
  timestamp : List Nat
deriving DecidableEq, Repr

/-- The wire map of an Unregister message. -/
def unregisterKVs (m : UnregisterMsg) : List (List Nat × MPValue) :=
  entry "message_type" (.mstr (asciiBytes "Unregister")) ++
  entry "account_id" (.mstr m.accountId) ++
  entry "timestamp" (.mstr m.timestamp)

/-- Parse an Unregister message from a wire map. -/
def unregisterFromMap (kvs : List (List Nat × MPValue)) : Option UnregisterMsg := do
  let accountId ← asStr (lookupKey kvs (asciiBytes "account_id"))
  let timestamp ← asStr (lookupKey kvs (asciiBytes "timestamp"))
  pure ⟨accountId, timestamp⟩

/-- Modelled from the spec: the Heartbeat message (spec section 6). -/
structure HeartbeatMsg where
  accountId : List Nat
  balance : Nat
  equity : Nat
  openPositions : Nat
  timestamp : List Nat
deriving DecidableEq, Repr

/-- The wire map of a Heartbeat message. -/
def heartbeatKVs (m : HeartbeatMsg) : List (List Nat × MPValue) :=
  entry "message_type" (.mstr (asciiBytes "Heartbeat")) ++
  entry "account_id" (.mstr m.accountId) ++
  entry "balance" (.mfloat m.balance) ++
  entry "equity" (.mfloat m.equity) ++
  entry "open_positions" (.mnat m.openPositions) ++
  entry "timestamp" (.mstr m.timestamp)

/-- Parse a Heartbeat message from a wire map. -/
def heartbeatFromMap (kvs : List (List Nat × MPValue)) : Option HeartbeatMsg := do
  let accountId ← asStr (lookupKey kvs (asciiBytes "account_id"))
  let balance ← asFloat (lookupKey kvs (asciiBytes "balance"))
  let equity ← asFloat (lookupKey kvs (asciiBytes "equity"))
  let openPositions ← asNat (lookupKey kvs (asciiBytes "open_positions"))
  let timestamp ← asStr (lookupKey kvs (asciiBytes "timestamp"))
  pure ⟨accountId, balance, equity, openPositions, timestamp⟩

/-- Modelled from the spec: the TradeSignal message; symbol, order_type,
lots, open_price, stop_loss, take_profit, magic_number and comment are
optional and omitted from the wire form when absent
(spec section 6 and src/tests/test_messagepack.py). -/
structure TradeSignalMsg where
  action : WAction
  ticket : Nat
  symbol : Option (List Nat)
  orderType : Option WOrderType
  lots : Option Nat
  openPrice : Option Nat
  stopLoss : Option Nat
  takeProfit : Option Nat
  magicNumber : Option Nat
  comment : Option (List Nat)
  timestamp : List Nat
  sourceAccount : List Nat
deriving DecidableEq, Repr

/-- The wire map of a TradeSignal, in the field order of the tests; absent
optional fields produce no entry. -/
def tradeSignalKVs (m : TradeSignalMsg) : List (List Nat × MPValue) :=
  entry "action" (.mstr (actionStr m.action)) ++
  entry "ticket" (.mnat m.ticket) ++
  optEntry "symbol" (m.symbol.map .mstr) ++
  optEntry "order_type" (m.orderType.map (fun t => .mstr (orderTypeStr t))) ++
  optEntry "lots" (m.lots.map .mfloat) ++
  optEntry "open_price" (m.openPrice.map .mfloat) ++
  optEntry "stop_loss" (m.stopLoss.map .mfloat) ++
  optEntry "take_profit" (m.takeProfit.map .mfloat) ++
  optEntry "magic_number" (m.magicNumber.map .mnat) ++
  optEntry "comment" (m.comment.map .mstr) ++
  entry "timestamp" (.mstr m.timestamp) ++
  entry "source_account" (.mstr m.sourceAccount)

/-- Parse an optional order_type string. -/
def parseOptOrderType : Option (List Nat) → Option (Option WOrderType)
  | none => some none
  | some s => (parseOrderType s).map some

/-- Parse a TradeSignal message from a wire map. -/
def tradeSignalFromMap (kvs : List (List Nat × MPValue)) : Option TradeSignalMsg := do
  let actionS ← asStr (lookupKey kvs (asciiBytes "action"))
  let action ← parseAction actionS
  let ticket ← asNat (lookupKey kvs (asciiBytes "ticket"))
  let symbol ← asOptStr (lookupKey kvs (asciiBytes "symbol"))
  let orderTypeS ← asOptStr (lookupKey kvs (asciiBytes "order_type"))
  let orderType ← parseOptOrderType orderTypeS
  let lots ← asOptFloat (lookupKey kvs (asciiBytes "lots"))
  let openPrice ← asOptFloat (lookupKey kvs (asciiBytes "open_price"))
  let stopLoss ← asOptFloat (lookupKey kvs (asciiBytes "stop_loss"))
  let takeProfit ← asOptFloat (lookupKey kvs (asciiBytes "take_profit"))
  let magicNumber ← asOptNat (lookupKey kvs (asciiBytes "magic_number"))
  let comment ← asOptStr (lookupKey kvs (asciiBytes "comment"))
  let timestamp ← asStr (lookupKey kvs (asciiBytes "timestamp"))
  let sourceAccount ← asStr (lookupKey kvs (asciiBytes "source_account"))
  pure ⟨action, ticket, symbol, orderType, lots, openPrice, stopLoss, takeProfit,
        magicNumber, comment, timestamp, sourceAccount⟩

/-- Modelled from the spec: one source-to-target symbol mapping of a
Config message (spec section 3). -/
structure SymbolMapping where
  sourceSymbol : List Nat
  targetSymbol : List Nat
deriving DecidableEq, Repr

/-- Wire form of a symbol mapping. -/
def symbolMappingToWire (sm : SymbolMapping) : MPValue :=
  .mmap (entry "source_symbol" (.mstr sm.sourceSymbol) ++
         entry "target_symbol" (.mstr sm.targetSymbol))

/-- Parse a symbol mapping. -/
def symbolMappingFromVal : MPValue → Option SymbolMapping
  | .mmap kvs => do
      let s ← asStr (lookupKey kvs (asciiBytes "source_symbol"))
      let t ← asStr (lookupKey kvs (asciiBytes "target_symbol"))
      pure ⟨s, t⟩
  | _ => none

/-- Parse a list of symbol mappings. -/
def parseMappingList : List MPValue → Option (List SymbolMapping)
  | [] => some []
  | v :: vs => do
      let m ← symbolMappingFromVal v
      let ms ← parseMappingList vs
      pure (m :: ms)

/-- Parse the symbol_mappings array. -/
def parseMappingsVal : Option MPValue → Option (List SymbolMapping)
  | some (.arr vs) => parseMappingList vs
  | _ => none

/-- Modelled from the spec: the allow and block lists of a Config message;
an absent list is carried as nil on the wire, as in the tests
(spec section 3 and src/tests/test_messagepack.py). -/
structure FilterSet where
  allowedSymbols : Option (List (List Nat))
  blockedSymbols : Option (List (List Nat))
  allowedMagicNumbers : Option (List Nat)
  blockedMagicNumbers : Option (List Nat)
deriving DecidableEq, Repr

/-- Wire array of strings. -/
def strListToWire (l : List (List Nat)) : MPValue := .arr (l.map .mstr)

/-- Wire array of integers. -/
def natListToWire (l : List Nat) : MPValue := .arr (l.map .mnat)

/-- An absent optional collection becomes nil on the wire. -/
def nilOr {α : Type} (f : α → MPValue) : Option α → MPValue
  | none => .nil
  | some x => f x

/-- Wire form of the filter lists. -/
def filterSetToWire (fs : FilterSet) : MPValue :=
  .mmap (entry "allowed_symbols" (nilOr strListToWire fs.allowedSymbols) ++
         entry "blocked_symbols" (nilOr strListToWire fs.blockedSymbols) ++
         entry "allowed_magic_numbers" (nilOr natListToWire fs.allowedMagicNumbers) ++
         entry "blocked_magic_numbers" (nilOr natListToWire fs.blockedMagicNumbers))

/-- Parse an array of strings. -/
def parseStrList : List MPValue → Option (List (List Nat))
  | [] => some []
  | .mstr s :: vs => (parseStrList vs).map (fun l => s :: l)
  | _ => none

/-- Parse an array of integers. -/
def parseNatList : List MPValue → Option (List Nat)
  | [] => some []
  | .mnat n :: vs => (parseNatList vs).map (fun l => n :: l)
  | _ => none

/-- Parse a nil-or-array-of-strings field. -/
def parseNilOrStrList : Option MPValue → Option (Option (List (List Nat)))
  | some .nil => some none
  | some (.arr vs) => (parseStrList vs).map some
  | _ => none

/-- Parse a nil-or-array-of-integers field. -/
def parseNilOrNatList : Option MPValue → Option (Option (List Nat))
  | some .nil => some none
  | some (.arr vs) => (parseNatList vs).map some
  | _ => none

/-- Parse the filters map. -/
def filterSetFromVal : Option MPValue → Option FilterSet
  | some (.mmap kvs) => do
      let a ← parseNilOrStrList (lookupKey kvs (asciiBytes "allowed_symbols"))
      let b ← parseNilOrStrList (lookupKey kvs (asciiBytes "blocked_symbols"))
      let c ← parseNilOrNatList (lookupKey kvs (asciiBytes "allowed_magic_numbers"))
      let d ← parseNilOrNatList (lookupKey kvs (asciiBytes "blocked_magic_numbers"))
      pure ⟨a, b, c, d⟩
  | _ => none

/-- Modelled from the spec: the Config message pushed to a slave
(spec section 6 and src/tests/test_messagepack.py). -/
structure ConfigMsg where
  accountId : List Nat
  masterAccount : List Nat
  tradeGroupId : List Nat
  timestamp : List Nat
  enabled : Bool
  lotMultiplier : Nat
  reverseTrade : Bool
  symbolMappings : List SymbolMapping
  filters : FilterSet
  configVersion : Nat
deriving DecidableEq, Repr

/-- The wire map of a Config message, in the field order of the tests. -/
def configKVs (m : ConfigMsg) : List (List Nat × MPValue) :=
  entry "account_id" (.mstr m.accountId) ++
  entry "master_account" (.mstr m.masterAccount) ++
  entry "trade_group_id" (.mstr m.tradeGroupId) ++
  entry "timestamp" (.mstr m.timestamp) ++
  entry "enabled" (.mbool m.enabled) ++
  entry "lot_multiplier" (.mfloat m.lotMultiplier) ++
  entry "reverse_trade" (.mbool m.reverseTrade) ++
  entry "symbol_mappings" (.arr (m.symbolMappings.map symbolMappingToWire)) ++
  entry "filters" (filterSetToWire m.filters) ++
  entry "config_version" (.mnat m.configVersion)

/-- Parse a Config message from a wire map. -/
def configFromMap (kvs : List (List Nat × MPValue)) : Option ConfigMsg := do
  let accountId ← asStr (lookupKey kvs (asciiBytes "account_id"))
  let masterAccount ← asStr (lookupKey kvs (asciiBytes "master_account"))
  let tradeGroupId ← asStr (lookupKey kvs (asciiBytes "trade_group_id"))
  let timestamp ← asStr (lookupKey kvs (asciiBytes "timestamp"))
  let enabled ← asBool (lookupKey kvs (asciiBytes "enabled"))
  let lotMultiplier ← asFloat (lookupKey kvs (asciiBytes "lot_multiplier"))
  let reverseTrade ← asBool (lookupKey kvs (asciiBytes "reverse_trade"))
  let symbolMappings ← parseMappingsVal (lookupKey kvs (asciiBytes "symbol_mappings"))
  let filters ← filterSetFromVal (lookupKey kvs (asciiBytes "filters"))
  let configVersion ← asNat (lookupKey kvs (asciiBytes "config_version"))
  pure ⟨accountId, masterAccount, tradeGroupId, timestamp, enabled, lotMultiplier,
        reverseTrade, symbolMappings, filters, configVersion⟩

/-- Modelled from the spec: the union of all wire message kinds
(spec section 6). -/
inductive WireMessage where
  | register (m : RegisterMsg)
  | unregister (m : UnregisterMsg)
  | heartbeat (m : HeartbeatMsg)
  | tradeSignal (m : TradeSignalMsg)
  | config (m : ConfigMsg)
deriving DecidableEq, Repr

/-- The wire value of a message: its self-describing map. -/
def WireMessage.toWire : WireMessage → MPValue
  | .register m => .mmap (registerKVs m)
  | .unregister m => .mmap (unregisterKVs m)
  | .heartbeat m => .mmap (heartbeatKVs m)
  | .tradeSignal m => .mmap (tradeSignalKVs m)
  | .config m => .mmap (configKVs m)

/-- Validity of a wire number: it fits in 64 bits. -/
def wfNum64 (n : Nat) : Bool := decide (n < 18446744073709551616)

/-- Validity of a Register message: representable strings and numbers. -/
def wfRegister (m : RegisterMsg) : Bool :=
  wfStrB m.accountId && wfStrB m.platform && wfNum64 m.accountNumber &&
  wfStrB m.broker && wfStrB m.accountName && wfStrB m.server &&
  wfNum64 m.balance && wfNum64 m.equity && wfStrB m.currency &&
  wfNum64 m.leverage && wfStrB m.timestamp

/-- Validity of an Unregister message. -/
def wfUnregister (m : UnregisterMsg) : Bool :=
  wfStrB m.accountId && wfStrB m.timestamp

/-- Validity of a Heartbeat message. -/
def wfHeartbeat (m : HeartbeatMsg) : Bool :=
  wfStrB m.accountId && wfNum64 m.balance && wfNum64 m.equity &&
  wfNum64 m.openPositions && wfStrB m.timestamp

/-- Validity of a TradeSignal message. -/
def wfTradeSignal (m : TradeSignalMsg) : Bool :=
  wfNum64 m.ticket && m.symbol.all wfStrB && m.lots.all wfNum64 &&
  m.openPrice.all wfNum64 && m.stopLoss.all wfNum64 && m.takeProfit.all wfNum64 &&
  m.magicNumber.all wfNum64 && m.comment.all wfStrB &&
  wfStrB m.timestamp && wfStrB m.sourceAccount

/-- Validity of a symbol mapping. -/
def wfSymbolMapping (sm : SymbolMapping) : Bool :=
  wfStrB sm.sourceSymbol && wfStrB sm.targetSymbol

/-- Validity of a string list of a filter. -/
def wfStrBList (l : List (List Nat)) : Bool :=
  decide (l.length < 4294967296) && l.all wfStrB

/-- Validity of an integer list of a filter. -/
def wfNumList (l : List Nat) : Bool :=
  decide (l.length < 4294967296) && l.all wfNum64

/-- Validity of a filter set. -/
def wfFilterSet (fs : FilterSet) : Bool :=
  fs.allowedSymbols.all wfStrBList && fs.blockedSymbols.all wfStrBList &&
  fs.allowedMagicNumbers.all wfNumList && fs.blockedMagicNumbers.all wfNumList

/-- Validity of a Config message. -/
def wfConfig (m : ConfigMsg) : Bool :=
  wfStrB m.accountId && wfStrB m.masterAccount && wfStrB m.tradeGroupId &&
  wfStrB m.timestamp && wfNum64 m.lotMultiplier &&
  decide (m.symbolMappings.length < 4294967296) &&
  m.symbolMappings.all wfSymbolMapping && wfFilterSet m.filters &&
  wfNum64 m.configVersion

/-- Validity of a wire message: every field representable on the wire. -/
def wfMessage : WireMessage → Bool
  | .register m => wfRegister m
  | .unregister m => wfUnregister m
  | .heartbeat m => wfHeartbeat m
  | .tradeSignal m => wfTradeSignal m
  | .config m => wfConfig m

/-- Modelled from the spec: parse a message from a decoded wire value.
Register, Unregister and Heartbeat carry a message_type discriminator;
TradeSignal is recognised by its action field, Config by its absence
(spec section 6). The implementation is not in the repository. -/
def messageFromWire : MPValue → Option WireMessage
  | .mmap kvs =>
    match lookupKey kvs (asciiBytes "message_type") with
    | some (.mstr t) =>
      if t == asciiBytes "Register" then (registerFromMap kvs).map .register
      else if t == asciiBytes "Unregister" then (unregisterFromMap kvs).map .unregister
      else if t == asciiBytes "Heartbeat" then (heartbeatFromMap kvs).map .heartbeat
      else none
    | some _ => none
    | none =>
      if (lookupKey kvs (asciiBytes "action")).isSome then
        (tradeSignalFromMap kvs).map .tradeSignal
      else
        (configFromMap kvs).map .config
  | _ => none

/-- Encode a message: the MessagePack bytes of its wire map. -/
def encodeMessage (m : WireMessage) : List Nat := encodeVal m.toWire

/-- Decode a message: parse one MessagePack value spanning the whole input
and interpret it.  The decoder fuel is the input length plus one, which
bounds the nesting depth of any value the input can hold. -/
def decodeMessage (bs : List Nat) : Option WireMessage :=
  match decodeVal (bs.length + 1) bs with
  | some (v, []) => messageFromWire v
  | _ => none

/-! ## Concrete example messages (from src/tests/test_messagepack.py)

The float fields carry the IEEE 754 bit patterns of the test values. -/

/-- The full Open trade signal of test_optional_fields_omitted: every
optional field present. -/
def fullOpenExample : TradeSignalMsg :=
  { action := .Open
    ticket := 123456
    symbol := some (asciiBytes "EURUSD")
    orderType := some .Buy
    lots := some 4591870180066957722
    openPrice := some 4607565224768343900
    stopLoss := some 4607542706770207048
    takeProfit := some 4607587742766480753
    magicNumber := some 0
    comment := some (asciiBytes "Test")
    timestamp := asciiBytes "2025-01-01T00:00:00Z"
    sourceAccount := asciiBytes "master" }

/-- The minimal Close trade signal of test_optional_fields_omitted: only
action, ticket, timestamp and source_account. -/
def minimalCloseExample : TradeSignalMsg :=
  { action := .Close
    ticket := 123456
    symbol := none
    orderType := none
    lots := none
    openPrice := none
    stopLoss := none
    takeProfit := none
    magicNumber := none
    comment := none
    timestamp := asciiBytes "2025-01-01T00:00:00Z"
    sourceAccount := asciiBytes "master" }

/-! ## Helper lemmas: the MessagePack codec round trip -/

theorem readBE_writeBE (k : Nat) : ∀ (n acc : Nat) (rest : List Nat), n < 256 ^ k →
    readBE k acc (writeBE k n ++ rest) = some (acc * 256 ^ k + n, rest) := by
  induction k with
  | zero =>
    intro n acc rest hn
    interval_cases n
    simp [writeBE, readBE]
  | succ k ih =>
    intro n acc rest hn
    have hlt : n % 256 ^ k < 256 ^ k := Nat.mod_lt _ (Nat.pos_pow_of_pos _ (by norm_num))
    have step : readBE (k + 1) acc (writeBE (k + 1) n ++ rest)
        = readBE k (acc * 256 + n / 256 ^ k) (writeBE k (n % 256 ^ k) ++ rest) := rfl
    rw [step, ih _ _ _ hlt]
    have hdm := Nat.div_add_mod n (256 ^ k)
    have harith : (acc * 256 + n / 256 ^ k) * 256 ^ k + n % 256 ^ k
        = acc * 256 ^ (k + 1) + n := by
      calc (acc * 256 + n / 256 ^ k) * 256 ^ k + n % 256 ^ k
          = acc * (256 ^ k * 256) + (256 ^ k * (n / 256 ^ k) + n % 256 ^ k) := by ring
        _ = acc * 256 ^ (k + 1) + n := by rw [hdm, pow_succ]
    rw [harith]

theorem readBE_writeBE0 (k n : Nat) (rest : List Nat) (hn : n < 256 ^ k) :
    readBE k 0 (writeBE k n ++ rest) = some (n, rest) := by
  have := readBE_writeBE k n 0 rest hn
  simpa using this

theorem writeBE_length (k n : Nat) : (writeBE k n).length = k := by
  induction k generalizing n with
  | zero => simp [writeBE]
  | succ k ih => simp [writeBE, ih]

theorem readBytes_append (s : List Nat) : ∀ rest : List Nat,
    readBytes s.length (s ++ rest) = some (s, rest) := by
  induction s with
  | nil => intro rest; simp [readBytes]
  | cons b s ih => intro rest; simp [readBytes, ih]

theorem decodeVal_cons (fuel : Nat) (b : Nat) (bs : List Nat) :
    decodeVal (fuel + 1) (b :: bs) = (if b < 128 then some (.mnat b, bs)
    else if b < 144 then
      match decodeKVWith (decodeVal fuel) (b - 128) bs with
      | some (kvs, r) => some (.mmap kvs, r)
      | none => none
    else if b < 160 then
      match decodeListWith (decodeVal fuel) (b - 144) bs with
      | some (vs, r) => some (.arr vs, r)
      | none => none
    else if b < 192 then
      match readBytes (b - 160) bs with
      | some (s, r) => some (.mstr s, r)
      | none => none
    else if b = 192 then some (.nil, bs)
    else if b = 194 then some (.mbool false, bs)
    else if b = 195 then some (.mbool true, bs)
    else if b = 203 then
      match readBE 8 0 bs with
      | some (n, r) => some (.mfloat n, r)
      | none => none
    else if b = 204 then
      match bs with
      | n :: r => some (.mnat n, r)
      | [] => none
    else if b = 205 then
      match readBE 2 0 bs with
      | some (n, r) => some (.mnat n, r)
      | none => none
    else if b = 206 then
      match readBE 4 0 bs with
      | some (n, r) => some (.mnat n, r)
      | none => none
    else if b = 207 then
      match readBE 8 0 bs with
      | some (n, r) => some (.mnat n, r)
      | none => none
    else if b = 217 then
      match bs with
      | n :: r =>
        match readBytes n r with
        | some (s, r2) => some (.mstr s, r2)
        | none => none
      | [] => none
    else if b = 218 then
      match readBE 2 0 bs with
      | some (n, r) =>
        match readBytes n r with
        | some (s, r2) => some (.mstr s, r2)
        | none => none
      | none => none
    else if b = 219 then
      match readBE 4 0 bs with
      | some (n, r) =>
        match readBytes n r with
        | some (s, r2) => some (.mstr s, r2)
        | none => none
      | none => none
    else if b = 220 then
      match readBE 2 0 bs with
      | some (n, r) =>
        match decodeListWith (decodeVal fuel) n r with
        | some (vs, r2) => some (.arr vs, r2)
        | none => none
      | none => none
    else if b = 221 then
      match readBE 4 0 bs with
      | some (n, r) =>
        match decodeListWith (decodeVal fuel) n r with
        | some (vs, r2) => some (.arr vs, r2)
        | none => none
      | none => none
    else if b = 222 then
      match readBE 2 0 bs with
      | some (n, r) =>
        match decodeKVWith (decodeVal fuel) n r with
        | some (kvs, r2) => some (.mmap kvs, r2)
        | none => none
      | none => none
    else if b = 223 then
      match readBE 4 0 bs with
      | some (n, r) =>
        match decodeKVWith (decodeVal fuel) n r with
        | some (kvs, r2) => some (.mmap kvs, r2)
        | none => none
      | none => none
    else none) := rfl

theorem decodeVal_encodeNat (fuel n : Nat) (rest : List Nat)
    (hn : n < 18446744073709551616) :
    decodeVal (fuel + 1) (encodeNat n ++ rest) = some (.mnat n, rest) := by
  by_cases h1 : n < 128
  · simp [encodeNat, h1, decodeVal_cons]
  · by_cases h2 : n < 256
    · simp [encodeNat, h1, h2, decodeVal_cons]
    · by_cases h3 : n < 65536
      · have := readBE_writeBE0 2 n rest (by norm_num; omega)
        simp [encodeNat, h1, h2, h3, decodeVal_cons, this]
      · by_cases h4 : n < 4294967296
        · have := readBE_writeBE0 4 n rest (by norm_num; omega)
          simp [encodeNat, h1, h2, h3, h4, decodeVal_cons, this]
        · have := readBE_writeBE0 8 n rest (by norm_num; omega)
          simp [encodeNat, h1, h2, h3, h4, decodeVal_cons, this]

theorem decodeVal_encodeStr (fuel : Nat) (s : List Nat) (rest : List Nat)
    (hs : s.length < 4294967296) :
    decodeVal (fuel + 1) (encodeStrBytes s ++ rest) = some (.mstr s, rest) := by
  have hrb := readBytes_append s rest
  by_cases h1 : s.length < 32
  · have hb1 : ¬(160 + s.length < 128) := by omega
    have hb2 : ¬(160 + s.length < 144) := by omega
    have hb3 : ¬(160 + s.length < 160) := by omega
    have hb4 : 160 + s.length < 192 := by omega
    simp [encodeStrBytes, strHeader, h1, decodeVal_cons, hb1, hb2, hb3, hb4, hrb]
  · by_cases h2 : s.length < 256
    · simp [encodeStrBytes, strHeader, h1, h2, decodeVal_cons, hrb]
    · by_cases h3 : s.length < 65536
      · have := readBE_writeBE0 2 s.length (s ++ rest) (by norm_num; omega)
        simp [encodeStrBytes, strHeader, h1, h2, h3, decodeVal_cons, this, hrb]
      · have := readBE_writeBE0 4 s.length (s ++ rest) (by norm_num; omega)
        simp [encodeStrBytes, strHeader, h1, h2, h3, decodeVal_cons, this, hrb]

theorem decodeVal_encodeFloat (fuel bits : Nat) (rest : List Nat)
    (hb : bits < 18446744073709551616) :
    decodeVal (fuel + 1) ((203 :: writeBE 8 bits) ++ rest) = some (.mfloat bits, rest) := by
  have := readBE_writeBE0 8 bits rest (by norm_num; omega)
  simp [decodeVal_cons, this]

theorem arrHeader_length_pos (n : Nat) : 1 ≤ (arrHeader n).length := by
  unfold arrHeader
  split
  · simp
  · split <;> simp [writeBE_length]

theorem mapHeader_length_pos (n : Nat) : 1 ≤ (mapHeader n).length := by
  unfold mapHeader
  split
  · simp
  · split <;> simp [writeBE_length]

theorem encodeVal_le_encodeList {v : MPValue} {vs : List MPValue} (h : v ∈ vs) :
    (encodeVal v).length ≤ (encodeList vs).length := by
  induction vs with
  | nil => cases h
  | cons w ws ih =>
    rcases List.mem_cons.mp h with rfl | h2
    · simp only [encodeList, List.length_append]; omega
    · have := ih h2
      simp only [encodeList, List.length_append]; omega

theorem encodeStr_le_encodeKVList {kv : List Nat × MPValue}
    {kvs : List (List Nat × MPValue)} (h : kv ∈ kvs) :
    (encodeStrBytes kv.1).length ≤ (encodeKVList kvs).length := by
  induction kvs with
  | nil => cases h
  | cons w ws ih =>
    rcases List.mem_cons.mp h with rfl | h2
    · simp only [encodeKVList, List.length_append]; omega
    · have := ih h2
      obtain ⟨k, v⟩ := w
      simp only [encodeKVList, List.length_append]; omega

theorem encodeVal_le_encodeKVList {kv : List Nat × MPValue}
    {kvs : List (List Nat × MPValue)} (h : kv ∈ kvs) :
    (encodeVal kv.2).length ≤ (encodeKVList kvs).length := by
  induction kvs with
  | nil => cases h
  | cons w ws ih =>
    rcases List.mem_cons.mp h with rfl | h2
    · simp only [encodeKVList, List.length_append]; omega
    · have := ih h2
      obtain ⟨k, v⟩ := w
      simp only [encodeKVList, List.length_append]; omega

theorem wfList_mem {v : MPValue} {vs : List MPValue} (hwf : wfList vs = true)
    (h : v ∈ vs) : wfVal v = true := by
  induction vs with
  | nil => cases h
  | cons w ws ih =>
    simp only [wfList, Bool.and_eq_true] at hwf
    rcases List.mem_cons.mp h with rfl | h2
    · exact hwf.1
    · exact ih hwf.2 h2

theorem wfKVList_mem {kv : List Nat × MPValue} {kvs : List (List Nat × MPValue)}
    (hwf : wfKVList kvs = true) (h : kv ∈ kvs) :
    wfStrB kv.1 = true ∧ wfVal kv.2 = true := by
  induction kvs with
  | nil => cases h
  | cons w ws ih =>
    obtain ⟨k, v⟩ := w
    simp only [wfKVList, Bool.and_eq_true] at hwf
    rcases List.mem_cons.mp h with rfl | h2
    · exact ⟨hwf.1.1, hwf.1.2⟩
    · exact ih hwf.2 h2

theorem decodeListWith_spec (dec : List Nat → Option (MPValue × List Nat)) :
    ∀ (vs : List MPValue) (rest : List Nat),
    (∀ v ∈ vs, ∀ r, dec (encodeVal v ++ r) = some (v, r)) →
    decodeListWith dec vs.length (encodeList vs ++ rest) = some (vs, rest) := by
  intro vs
  induction vs with
  | nil => intro rest _; simp [encodeList, decodeListWith]
  | cons v vs ih =>
    intro rest h
    have hv := h v (by simp) (encodeList vs ++ rest)
    have hrec := ih rest (fun w hw r => h w (by simp [hw]) r)
    simp only [encodeList, List.length_cons, List.append_assoc, decodeListWith, hv, hrec]

theorem decodeKVWith_spec (dec : List Nat → Option (MPValue × List Nat)) :
    ∀ (kvs : List (List Nat × MPValue)) (rest : List Nat),
    (∀ kv ∈ kvs, (∀ r, dec (encodeStrBytes kv.1 ++ r) = some (.mstr kv.1, r)) ∧
                 (∀ r, dec (encodeVal kv.2 ++ r) = some (kv.2, r))) →
    decodeKVWith dec kvs.length (encodeKVList kvs ++ rest) = some (kvs, rest) := by
  intro kvs
  induction kvs with
  | nil => intro rest _; simp [encodeKVList, decodeKVWith]
  | cons kv kvs ih =>
    intro rest h
    obtain ⟨k, v⟩ := kv
    have hk := (h (k, v) (by simp)).1 (encodeVal v ++ (encodeKVList kvs ++ rest))
    have hv := (h (k, v) (by simp)).2 (encodeKVList kvs ++ rest)
    have hrec := ih rest (fun w hw => h w (by simp [hw]))
    simp only [encodeKVList, List.length_cons, List.append_assoc, decodeKVWith, hk, hv, hrec]

theorem decodeVal_encodeVal : ∀ (fuel : Nat) (v : MPValue) (rest : List Nat),
    wfVal v = true → (encodeVal v).length < fuel →
    decodeVal fuel (encodeVal v ++ rest) = some (v, rest) := by
  intro fuel
  induction fuel with
  | zero => intro v rest _ h; omega
  | succ fuel ih =>
    intro v rest hwf hlen
    cases v with
    | nil => simp [encodeVal, decodeVal_cons]
    | mbool b => cases b <;> simp [encodeVal, decodeVal_cons]
    | mnat n =>
      have hn : n < 18446744073709551616 := by
        simpa [wfVal] using hwf
      simpa [encodeVal] using decodeVal_encodeNat fuel n rest hn
    | mfloat bits =>
      have hb : bits < 18446744073709551616 := by
        simpa [wfVal] using hwf
      simpa [encodeVal] using decodeVal_encodeFloat fuel bits rest hb
    | mstr s =>
      have hs : s.length < 4294967296 := by
        simp only [wfVal, wfStrB, Bool.and_eq_true, decide_eq_true_eq] at hwf
        exact hwf.1
      simpa [encodeVal] using decodeVal_encodeStr fuel s rest hs
    | arr vs =>
      have h1 : vs.length < 4294967296 ∧ wfList vs = true := by
        simpa [wfVal, Bool.and_eq_true] using hwf
      have hlen1 : (encodeVal (.arr vs)).length
          = (arrHeader vs.length).length + (encodeList vs).length := by
        simp [encodeVal]
      have hhead := arrHeader_length_pos vs.length
      have hlen2 : (encodeList vs).length < fuel := by omega
      have hdec : ∀ w ∈ vs, ∀ r, decodeVal fuel (encodeVal w ++ r) = some (w, r) := by
        intro w hw r
        exact ih w r (wfList_mem h1.2 hw)
          (lt_of_le_of_lt (encodeVal_le_encodeList hw) hlen2)
      have hspec := decodeListWith_spec (decodeVal fuel) vs rest hdec
      by_cases hc : vs.length < 16
      · have hb1 : ¬ (144 + vs.length < 128) := by omega
        have hb2 : ¬ (144 + vs.length < 144) := by omega
        have hb3 : 144 + vs.length < 160 := by omega
        simp [encodeVal, arrHeader, hc, decodeVal_cons, hb1, hb2, hb3,
          Nat.add_sub_cancel_left, hspec, List.append_assoc]
      · by_cases hc2 : vs.length < 65536
        · have hrd := readBE_writeBE0 2 vs.length (encodeList vs ++ rest) (by norm_num; omega)
          simp [encodeVal, arrHeader, hc, hc2, decodeVal_cons, hrd, hspec, List.append_assoc]
        · have hrd := readBE_writeBE0 4 vs.length (encodeList vs ++ rest) (by norm_num; omega)
          simp [encodeVal, arrHeader, hc, hc2, decodeVal_cons, hrd, hspec, List.append_assoc]
    | mmap kvs =>
      have h1 : kvs.length < 4294967296 ∧ wfKVList kvs = true := by
        simpa [wfVal, Bool.and_eq_true] using hwf
      have hlen1 : (encodeVal (.mmap kvs)).length
          = (mapHeader kvs.length).length + (encodeKVList kvs).length := by
        simp [encodeVal]
      have hhead := mapHeader_length_pos kvs.length
      have hlen2 : (encodeKVList kvs).length < fuel := by omega
      have hdec : ∀ kv ∈ kvs,
          (∀ r, decodeVal fuel (encodeStrBytes kv.1 ++ r) = some (.mstr kv.1, r)) ∧
          (∀ r, decodeVal fuel (encodeVal kv.2 ++ r) = some (kv.2, r)) := by
        intro kv hkv
        have hwfkv := wfKVList_mem h1.2 hkv
        constructor
        · intro r
          have hk := ih (.mstr kv.1) r (by simpa [wfVal] using hwfkv.1)
            (lt_of_le_of_lt (by simpa [encodeVal] using encodeStr_le_encodeKVList hkv) hlen2)
          simpa [encodeVal] using hk
        · intro r
          exact ih kv.2 r hwfkv.2
            (lt_of_le_of_lt (encodeVal_le_encodeKVList hkv) hlen2)
      have hspec := decodeKVWith_spec (decodeVal fuel) kvs rest hdec
      by_cases hc : kvs.length < 16
      · have hb1 : ¬ (128 + kvs.length < 128) := by omega
        have hb2 : 128 + kvs.length < 144 := by omega
        simp [encodeVal, mapHeader, hc, decodeVal_cons, hb1, hb2,
          Nat.add_sub_cancel_left, hspec, List.append_assoc]
      · by_cases hc2 : kvs.length < 65536
        · have hrd := readBE_writeBE0 2 kvs.length (encodeKVList kvs ++ rest) (by norm_num; omega)
          simp [encodeVal, mapHeader, hc, hc2, decodeVal_cons, hrd, hspec, List.append_assoc]
        · have hrd := readBE_writeBE0 4 kvs.length (encodeKVList kvs ++ rest) (by norm_num; omega)
          simp [encodeVal, mapHeader, hc, hc2, decodeVal_cons, hrd, hspec, List.append_assoc]

theorem parseEAType_round (e : WEAType) : parseEAType (eaTypeStr e) = some e := by
  cases e <;> rfl

theorem parseOrderType_round (t : WOrderType) : parseOrderType (orderTypeStr t) = some t := by
  cases t <;> rfl

theorem parseAction_round (a : WAction) : parseAction (actionStr a) = some a := by
  cases a <;> rfl

theorem lookupKey_nil (k : List Nat) : lookupKey [] k = none := rfl

theorem lookupKey_entry_self (k : String) (v : MPValue) (l2 : List (List Nat × MPValue)) :
    lookupKey (entry k v ++ l2) (asciiBytes k) = some v := by
  simp [lookupKey, entry, List.find?]

theorem lookupKey_entry_ne (k k2 : String) (v : MPValue) (l2 : List (List Nat × MPValue))
    (h : (asciiBytes k == asciiBytes k2) = false) :
    lookupKey (entry k v ++ l2) (asciiBytes k2) = lookupKey l2 (asciiBytes k2) := by
  simp [lookupKey, entry, List.find?, h]

theorem lookupKey_optEntry_self (k : String) (o : Option MPValue)
    (l2 : List (List Nat × MPValue)) (h2 : lookupKey l2 (asciiBytes k) = none) :
    lookupKey (optEntry k o ++ l2) (asciiBytes k) = o := by
  cases o with
  | none => simpa [optEntry] using h2
  | some v => simp [lookupKey, optEntry, List.find?]

theorem lookupKey_optEntry_ne (k k2 : String) (o : Option MPValue)
    (l2 : List (List Nat × MPValue)) (h : (asciiBytes k == asciiBytes k2) = false) :
    lookupKey (optEntry k o ++ l2) (asciiBytes k2) = lookupKey l2 (asciiBytes k2) := by
  cases o with
  | none => simp [optEntry]
  | some v => simp [lookupKey, optEntry, List.find?, h]

theorem asOptStr_map (o : Option (List Nat)) : asOptStr (o.map .mstr) = some o := by
  cases o <;> rfl

theorem asOptNat_map (o : Option Nat) : asOptNat (o.map .mnat) = some o := by
  cases o <;> rfl

theorem asOptFloat_map (o : Option Nat) : asOptFloat (o.map .mfloat) = some o := by
  cases o <;> rfl

theorem lookupKey_entry_last_self (k : String) (v : MPValue) :
    lookupKey (entry k v) (asciiBytes k) = some v := by
  simp [lookupKey, entry, List.find?]

theorem lookupKey_entry_last_ne (k k2 : String) (v : MPValue)
    (h : (asciiBytes k == asciiBytes k2) = false) :
    lookupKey (entry k v) (asciiBytes k2) = none := by
  simp [lookupKey, entry, List.find?, h]

theorem registerFromMap_round (m : RegisterMsg) :
    registerFromMap (registerKVs m) = some m := by
  simp +decide only [registerKVs, registerFromMap, List.append_assoc,
    lookupKey_entry_self, lookupKey_entry_ne, lookupKey_entry_last_self,
    lookupKey_entry_last_ne, asStr, asNat, asFloat, parseEAType_round,
    Option.bind_eq_bind, Option.some_bind, Option.pure_def]

theorem unregisterFromMap_round (m : UnregisterMsg) :
    unregisterFromMap (unregisterKVs m) = some m := by
  simp +decide only [unregisterKVs, unregisterFromMap, List.append_assoc,
    lookupKey_entry_self, lookupKey_entry_ne, lookupKey_entry_last_self,
    lookupKey_entry_last_ne, asStr,
    Option.bind_eq_bind, Option.some_bind, Option.pure_def]

theorem heartbeatFromMap_round (m : HeartbeatMsg) :
    heartbeatFromMap (heartbeatKVs m) = some m := by
  simp +decide only [heartbeatKVs, heartbeatFromMap, List.append_assoc,
    lookupKey_entry_self, lookupKey_entry_ne, lookupKey_entry_last_self,
    lookupKey_entry_last_ne, asStr, asNat, asFloat,
    Option.bind_eq_bind, Option.some_bind, Option.pure_def]

theorem parseOptOrderType_round (o : Option WOrderType) :
    parseOptOrderType (o.map orderTypeStr) = some o := by
  cases o with
  | none => rfl
  | some t => cases t <;> rfl

theorem asOptStr_map_comp (o : Option WOrderType) :
    asOptStr (o.map (fun t => .mstr (orderTypeStr t))) = some (o.map orderTypeStr) := by
  cases o <;> rfl

theorem tradeSignalFromMap_round (m : TradeSignalMsg) :
    tradeSignalFromMap (tradeSignalKVs m) = some m := by
  simp +decide only [tradeSignalKVs, tradeSignalFromMap, List.append_assoc,
    lookupKey_entry_self, lookupKey_entry_ne, lookupKey_entry_last_self,
    lookupKey_entry_last_ne, lookupKey_optEntry_self, lookupKey_optEntry_ne,
    asStr, asNat, parseAction_round, asOptStr_map, asOptStr_map_comp,
    parseOptOrderType_round, asOptFloat_map, asOptNat_map,
    Option.bind_eq_bind, Option.some_bind, Option.pure_def]

theorem symbolMappingFromVal_round (sm : SymbolMapping) :
    symbolMappingFromVal (symbolMappingToWire sm) = some sm := by
  simp +decide only [symbolMappingToWire, symbolMappingFromVal, List.append_assoc,
    lookupKey_entry_self, lookupKey_entry_ne, lookupKey_entry_last_self,
    lookupKey_entry_last_ne, asStr,
    Option.bind_eq_bind, Option.some_bind, Option.pure_def]

theorem parseMappingList_round (l : List SymbolMapping) :
    parseMappingList (l.map symbolMappingToWire) = some l := by
  induction l with
  | nil => rfl
  | cons sm l ih =>
    simp only [List.map_cons, parseMappingList, symbolMappingFromVal_round, ih,
      Option.bind_eq_bind, Option.some_bind, Option.pure_def]

theorem parseStrList_round (l : List (List Nat)) :
    parseStrList (l.map .mstr) = some l := by
  induction l with
  | nil => rfl
  | cons s l ih => simp [parseStrList, ih]

theorem parseNatList_round (l : List Nat) :
    parseNatList (l.map .mnat) = some l := by
  induction l with
  | nil => rfl
  | cons n l ih => simp [parseNatList, ih]

theorem parseNilOrStrList_round (o : Option (List (List Nat))) :
    parseNilOrStrList (some (nilOr strListToWire o)) = some o := by
  cases o with
  | none => rfl
  | some l => simp [nilOr, strListToWire, parseNilOrStrList, parseStrList_round]

theorem parseNilOrNatList_round (o : Option (List Nat)) :
    parseNilOrNatList (some (nilOr natListToWire o)) = some o := by
  cases o with
  | none => rfl
  | some l => simp [nilOr, natListToWire, parseNilOrNatList, parseNatList_round]

theorem filterSetFromVal_round (fs : FilterSet) :
    filterSetFromVal (some (filterSetToWire fs)) = some fs := by
  simp +decide only [filterSetToWire, filterSetFromVal, List.append_assoc,
    lookupKey_entry_self, lookupKey_entry_ne, lookupKey_entry_last_self,
    lookupKey_entry_last_ne, parseNilOrStrList_round, parseNilOrNatList_round,
    Option.bind_eq_bind, Option.some_bind, Option.pure_def]

theorem configFromMap_round (m : ConfigMsg) :
    configFromMap (configKVs m) = some m := by
  simp +decide only [configKVs, configFromMap, List.append_assoc,
    lookupKey_entry_self, lookupKey_entry_ne, lookupKey_entry_last_self,
    lookupKey_entry_last_ne, asStr, asNat, asFloat, asBool,
    parseMappingsVal, parseMappingList_round, filterSetFromVal_round,
    Option.bind_eq_bind, Option.some_bind, Option.pure_def]

theorem wfKVList_append (l1 l2 : List (List Nat × MPValue)) :
    wfKVList (l1 ++ l2) = (wfKVList l1 && wfKVList l2) := by
  induction l1 with
  | nil => simp [wfKVList]
  | cons kv l1 ih =>
    obtain ⟨k, v⟩ := kv
    simp [wfKVList, ih, Bool.and_assoc]

theorem wfKVList_entry (k : String) (v : MPValue) :
    wfKVList (entry k v) = (wfStrB (asciiBytes k) && wfVal v) := by
  simp [entry, wfKVList]

theorem wfKVList_optEntry (k : String) (ov : Option MPValue) :
    wfKVList (optEntry k ov) = ov.all (fun v => wfStrB (asciiBytes k) && wfVal v) := by
  cases ov <;> simp [optEntry, wfKVList]

theorem optAll_map {α β : Type} (o : Option α) (f : α → β) (p : β → Bool) :
    (o.map f).all p = o.all (fun x => p (f x)) := by
  cases o <;> rfl

theorem wfStrB_eaTypeStr (e : WEAType) : wfStrB (eaTypeStr e) = true := by
  cases e <;> decide

theorem wfStrB_orderTypeStr (t : WOrderType) : wfStrB (orderTypeStr t) = true := by
  cases t <;> decide

theorem wfStrB_actionStr (a : WAction) : wfStrB (actionStr a) = true := by
  cases a <;> decide

theorem wfVal_mmap (kvs : List (List Nat × MPValue)) :
    wfVal (.mmap kvs) = (decide (kvs.length < 4294967296) && wfKVList kvs) := rfl

theorem wfVal_arr (vs : List MPValue) :
    wfVal (.arr vs) = (decide (vs.length < 4294967296) && wfList vs) := rfl

theorem wfVal_nil2 : wfVal .nil = true := rfl

theorem wfVal_mbool (b : Bool) : wfVal (.mbool b) = true := by cases b <;> rfl

theorem wfVal_mnat (n : Nat) : wfVal (.mnat n) = wfNum64 n := rfl

theorem wfVal_mfloat (n : Nat) : wfVal (.mfloat n) = wfNum64 n := rfl

theorem wfVal_mstr (s : List Nat) : wfVal (.mstr s) = wfStrB s := rfl

theorem optEntry_length_le (k : String) (o : Option MPValue) :
    (optEntry k o).length ≤ 1 := by
  cases o <;> simp [optEntry]

theorem wfVal_registerKVs (m : RegisterMsg) (h : wfRegister m = true) :
    wfVal (.mmap (registerKVs m)) = true := by
  simp only [wfRegister, Bool.and_eq_true, and_assoc] at h
  simp +decide [wfVal_mmap, registerKVs, entry, wfKVList_append, wfKVList,
    wfVal_mstr, wfVal_mnat, wfVal_mfloat, wfStrB_eaTypeStr,
    h.1, h.2.1, h.2.2.1, h.2.2.2.1, h.2.2.2.2.1, h.2.2.2.2.2.1,
    h.2.2.2.2.2.2.1, h.2.2.2.2.2.2.2.1, h.2.2.2.2.2.2.2.2.1,
    h.2.2.2.2.2.2.2.2.2.1, h.2.2.2.2.2.2.2.2.2.2]

theorem wfVal_unregisterKVs (m : UnregisterMsg) (h : wfUnregister m = true) :
    wfVal (.mmap (unregisterKVs m)) = true := by
  simp only [wfUnregister, Bool.and_eq_true, and_assoc] at h
  simp +decide [wfVal_mmap, unregisterKVs, entry, wfKVList_append, wfKVList,
    wfVal_mstr, h.1, h.2]

theorem wfVal_heartbeatKVs (m : HeartbeatMsg) (h : wfHeartbeat m = true) :
    wfVal (.mmap (heartbeatKVs m)) = true := by
  simp only [wfHeartbeat, Bool.and_eq_true, and_assoc] at h
  simp +decide [wfVal_mmap, heartbeatKVs, entry, wfKVList_append, wfKVList,
    wfVal_mstr, wfVal_mnat, wfVal_mfloat, h.1, h.2.1, h.2.2.1, h.2.2.2.1, h.2.2.2.2]

theorem wfVal_tradeSignalKVs (m : TradeSignalMsg) (h : wfTradeSignal m = true) :
    wfVal (.mmap (tradeSignalKVs m)) = true := by
  simp only [wfTradeSignal, Bool.and_eq_true, and_assoc] at h
  rw [wfVal_mmap, Bool.and_eq_true]
  constructor
  · have e1 := optEntry_length_le "symbol" (m.symbol.map .mstr)
    have e2 := optEntry_length_le "order_type"
      (m.orderType.map (fun t => .mstr (orderTypeStr t)))
    have e3 := optEntry_length_le "lots" (m.lots.map .mfloat)
    have e4 := optEntry_length_le "open_price" (m.openPrice.map .mfloat)
    have e5 := optEntry_length_le "stop_loss" (m.stopLoss.map .mfloat)
    have e6 := optEntry_length_le "take_profit" (m.takeProfit.map .mfloat)
    have e7 := optEntry_length_le "magic_number" (m.magicNumber.map .mnat)
    have e8 := optEntry_length_le "comment" (m.comment.map .mstr)
    simp only [tradeSignalKVs, List.length_append, entry, List.length_singleton,
      decide_eq_true_eq]
    omega
  · have k1 : wfStrB (asciiBytes "symbol") = true := by decide
    have k2 : wfStrB (asciiBytes "order_type") = true := by decide
    have k3 : wfStrB (asciiBytes "lots") = true := by decide
    have k4 : wfStrB (asciiBytes "open_price") = true := by decide
    have k5 : wfStrB (asciiBytes "stop_loss") = true := by decide
    have k6 : wfStrB (asciiBytes "take_profit") = true := by decide
    have k7 : wfStrB (asciiBytes "magic_number") = true := by decide
    have k8 : wfStrB (asciiBytes "comment") = true := by decide
    have optAll_true : ∀ {α : Type} (o : Option α), Option.all (fun _ => true) o = true := by
      intro α o; cases o <;> rfl
    simp +decide [tradeSignalKVs, wfKVList_append, wfKVList_entry,
      wfKVList_optEntry, optAll_map, wfVal_mstr, wfVal_mnat, wfVal_mfloat,
      wfStrB_actionStr, wfStrB_orderTypeStr, k1, k2, k3, k4, k5, k6, k7, k8,
      optAll_true,
      h.1, h.2.1, h.2.2.1, h.2.2.2.1, h.2.2.2.2.1, h.2.2.2.2.2.1,
      h.2.2.2.2.2.2.1, h.2.2.2.2.2.2.2.1, h.2.2.2.2.2.2.2.2.1, h.2.2.2.2.2.2.2.2.2]

theorem wfList_map_mstr (l : List (List Nat)) (h : l.all wfStrB = true) :
    wfList (l.map .mstr) = true := by
  induction l with
  | nil => rfl
  | cons s l ih =>
    simp only [List.all_cons, Bool.and_eq_true] at h
    simp [wfList, wfVal_mstr, h.1, ih h.2]

theorem wfList_map_mnat (l : List Nat) (h : l.all wfNum64 = true) :
    wfList (l.map .mnat) = true := by
  induction l with
  | nil => rfl
  | cons n l ih =>
    simp only [List.all_cons, Bool.and_eq_true] at h
    simp [wfList, wfVal_mnat, h.1, ih h.2]

theorem wfVal_nilOrStrList (o : Option (List (List Nat))) (h : o.all wfStrBList = true) :
    wfVal (nilOr strListToWire o) = true := by
  cases o with
  | none => rfl
  | some l =>
    simp only [Option.all_some, wfStrBList, Bool.and_eq_true] at h
    simp [nilOr, strListToWire, wfVal_arr, h.1, wfList_map_mstr l h.2]

theorem wfVal_nilOrNatList (o : Option (List Nat)) (h : o.all wfNumList = true) :
    wfVal (nilOr natListToWire o) = true := by
  cases o with
  | none => rfl
  | some l =>
    simp only [Option.all_some, wfNumList, Bool.and_eq_true] at h
    simp [nilOr, natListToWire, wfVal_arr, h.1, wfList_map_mnat l h.2]

theorem wfVal_filterSetToWire (fs : FilterSet) (h : wfFilterSet fs = true) :
    wfVal (filterSetToWire fs) = true := by
  simp only [wfFilterSet, Bool.and_eq_true, and_assoc] at h
  simp +decide [filterSetToWire, wfVal_mmap, entry, wfKVList_append, wfKVList,
    wfVal_nilOrStrList _ h.1, wfVal_nilOrStrList _ h.2.1,
    wfVal_nilOrNatList _ h.2.2.1, wfVal_nilOrNatList _ h.2.2.2]

theorem wfList_map_symbolMapping (l : List SymbolMapping)
    (h : l.all wfSymbolMapping = true) :
    wfList (l.map symbolMappingToWire) = true := by
  induction l with
  | nil => rfl
  | cons sm l ih =>
    simp only [List.all_cons, Bool.and_eq_true, wfSymbolMapping] at h
    simp +decide [wfList, symbolMappingToWire, wfVal_mmap, entry, wfKVList_append,
      wfKVList, wfVal_mstr, h.1.1, h.1.2, ih h.2]

theorem wfVal_configKVs (m : ConfigMsg) (h : wfConfig m = true) :
    wfVal (.mmap (configKVs m)) = true := by
  simp only [wfConfig, Bool.and_eq_true, and_assoc] at h
  simp +decide [wfVal_mmap, configKVs, entry, wfKVList_append, wfKVList,
    wfVal_mstr, wfVal_mnat, wfVal_mfloat, wfVal_mbool, wfVal_arr,
    h.1, h.2.1, h.2.2.1, h.2.2.2.1, h.2.2.2.2.1, h.2.2.2.2.2.1,
    wfList_map_symbolMapping _ h.2.2.2.2.2.2.1,
    wfVal_filterSetToWire _ h.2.2.2.2.2.2.2.1, h.2.2.2.2.2.2.2.2]

theorem wfVal_toWire (m : WireMessage) (h : wfMessage m = true) :
    wfVal m.toWire = true := by
  cases m with
  | register r => exact wfVal_registerKVs r h
  | unregister r => exact wfVal_unregisterKVs r h
  | heartbeat r => exact wfVal_heartbeatKVs r h
  | tradeSignal r => exact wfVal_tradeSignalKVs r h
  | config r => exact wfVal_configKVs r h

theorem messageFromWire_toWire (m : WireMessage) :
    messageFromWire m.toWire = some m := by
  cases m with
  | register r =>
    have hmt : lookupKey (registerKVs r) (asciiBytes "message_type")
        = some (.mstr (asciiBytes "Register")) := by
      simp only [registerKVs, List.append_assoc, lookupKey_entry_self]
    simp +decide [WireMessage.toWire, messageFromWire, hmt, registerFromMap_round r]
  | unregister r =>
    have hmt : lookupKey (unregisterKVs r) (asciiBytes "message_type")
        = some (.mstr (asciiBytes "Unregister")) := by
      simp only [unregisterKVs, List.append_assoc, lookupKey_entry_self]
    simp +decide [WireMessage.toWire, messageFromWire, hmt, unregisterFromMap_round r]
  | heartbeat r =>
    have hmt : lookupKey (heartbeatKVs r) (asciiBytes "message_type")
        = some (.mstr (asciiBytes "Heartbeat")) := by
      simp only [heartbeatKVs, List.append_assoc, lookupKey_entry_self]
    simp +decide [WireMessage.toWire, messageFromWire, hmt, heartbeatFromMap_round r]
  | tradeSignal r =>
    have hmt : lookupKey (tradeSignalKVs r) (asciiBytes "message_type") = none := by
      simp +decide only [tradeSignalKVs, List.append_assoc, lookupKey_entry_ne,
        lookupKey_optEntry_ne, lookupKey_entry_last_ne]
    have hact : lookupKey (tradeSignalKVs r) (asciiBytes "action")
        = some (.mstr (actionStr r.action)) := by
      simp only [tradeSignalKVs, List.append_assoc, lookupKey_entry_self]
    simp only [WireMessage.toWire, messageFromWire, hmt, hact, Option.isSome_some,
      if_true, tradeSignalFromMap_round r, Option.map_some']
  | config r =>
    have hmt : lookupKey (configKVs r) (asciiBytes "message_type") = none := by
      simp +decide only [configKVs, List.append_assoc, lookupKey_entry_ne,
        lookupKey_entry_last_ne]
    have hact : lookupKey (configKVs r) (asciiBytes "action") = none := by
      simp +decide only [configKVs, List.append_assoc, lookupKey_entry_ne,
        lookupKey_entry_last_ne]
    simp only [WireMessage.toWire, messageFromWire, hmt, hact, Option.isSome_none,
      Bool.false_eq_true, if_false, configFromMap_round r, Option.map_some']

theorem decodeMessage_encodeMessage (m : WireMessage) (h : wfMessage m = true) :
    decodeMessage (encodeMessage m) = some m := by
  have hrt := decodeVal_encodeVal ((encodeVal m.toWire).length + 1) m.toWire []
    (wfVal_toWire m h) (by omega)
  rw [List.append_nil] at hrt
  simp only [decodeMessage, encodeMessage, hrt, messageFromWire_toWire]

/-! ## Claim theorems -/

/-- C1: for every incoming Open TradeSignal with a parseable timestamp,
evaluated with threshold max_delay_ms: a delay of now - timestamp within
the threshold decides Execute at market; past the threshold the decision
is Pending when the pending fallback is enabled and Skip when it is
disabled, and a Skip places no order and creates no record. -/
theorem c1_open_delay_threshold_policy (st : EngineState) (slave : String)
    (sig : OpenSignal) (now maxDelayMs tsv : Nat) (fallbackEnabled : Bool)
    (currentPrice : Rat) (ht : sig.timestamp = some tsv) :
    (now - tsv ≤ maxDelayMs →
      decideOpen (signalDelay now sig.timestamp) maxDelayMs fallbackEnabled = .Execute) ∧
    (maxDelayMs < now - tsv → fallbackEnabled = true →
      decideOpen (signalDelay now sig.timestamp) maxDelayMs fallbackEnabled = .Pending) ∧
    (maxDelayMs < now - tsv → fallbackEnabled = false →
      decideOpen (signalDelay now sig.timestamp) maxDelayMs fallbackEnabled = .Skip ∧
      processOpen st slave sig now maxDelayMs fallbackEnabled currentPrice = (st, [])) := by
  rw [ht]
  refine ⟨fun hd => ?_, fun hd hf => ?_, fun hd hf => ⟨?_, ?_⟩⟩
  · simp [signalDelay, decideOpen, Delay.exceeds, Nat.not_lt.mpr hd]
  · simp [signalDelay, decideOpen, Delay.exceeds, hd, hf]
  · simp [signalDelay, decideOpen, Delay.exceeds, hd, hf]
  · simp [processOpen, ht, signalDelay, decideOpen, Delay.exceeds, hd, hf]

/-- Witness for C1: a 6-second-old signal with threshold 5000 ms and
fallback disabled is skipped, with no order and no record. -/
theorem c1_open_delay_threshold_policy_witness :
    decideOpen (signalDelay 11000 (some 5000)) 5000 false = .Skip ∧
    processOpen ⟨[], []⟩ "S1" ⟨1, .Buy, 1, some 5000⟩ 11000 5000 false 1
      = (⟨[], []⟩, []) :=
  (c1_open_delay_threshold_policy ⟨[], []⟩ "S1" ⟨1, .Buy, 1, some 5000⟩
    11000 5000 5000 false 1 rfl).2.2 (by decide) rfl

/-- C2: the derived pending order type is a total function of order type,
entry price and current price: BuyLimit exactly for a Buy with entry below
current, BuyStop exactly for a Buy with entry at or above current,
SellLimit exactly for a Sell with entry above current, SellStop exactly
for a Sell with entry at or below current; at price equality a Buy gives
BuyStop and a Sell gives SellStop. -/
theorem c2_pending_type_total_function (ot : OrderType) (entryPrice currentPrice : Rat) :
    (derivePendingType ot entryPrice currentPrice = .BuyLimit ↔
      ot = .Buy ∧ entryPrice < currentPrice) ∧
    (derivePendingType ot entryPrice currentPrice = .BuyStop ↔
      ot = .Buy ∧ currentPrice ≤ entryPrice) ∧
    (derivePendingType ot entryPrice currentPrice = .SellLimit ↔
      ot = .Sell ∧ currentPrice < entryPrice) ∧
    (derivePendingType ot entryPrice currentPrice = .SellStop ↔
      ot = .Sell ∧ entryPrice ≤ currentPrice) ∧
    derivePendingType .Buy entryPrice entryPrice = .BuyStop ∧
    derivePendingType .Sell entryPrice entryPrice = .SellStop := by
  cases ot with
  | Buy =>
    rcases lt_trichotomy entryPrice currentPrice with h | rfl | h
    · simp [derivePendingType, h, not_le.mpr h, lt_asymm h, le_of_lt h, lt_irrefl, le_refl]
    · simp [derivePendingType, lt_irrefl, le_refl]
    · simp [derivePendingType, h, not_le.mpr h, lt_asymm h, le_of_lt h, lt_irrefl, le_refl]
  | Sell =>
    rcases lt_trichotomy entryPrice currentPrice with h | rfl | h
    · simp [derivePendingType, h, not_le.mpr h, lt_asymm h, le_of_lt h, lt_irrefl, le_refl]
    · simp [derivePendingType, lt_irrefl, le_refl]
    · simp [derivePendingType, h, not_le.mpr h, lt_asymm h, le_of_lt h, lt_irrefl, le_refl]

/-- C3: an Open signal whose timestamp fails to parse is treated as
maximally delayed: it is never executed at market, whatever the threshold;
with fallback enabled it becomes Pending, otherwise it is skipped. -/
theorem c3_unknown_timestamp_fail_safe (sig : OpenSignal) (now maxDelayMs : Nat)
    (fallbackEnabled : Bool) (ht : sig.timestamp = none) :
    decideOpen (signalDelay now sig.timestamp) maxDelayMs fallbackEnabled ≠ .Execute ∧
    (fallbackEnabled = true →
      decideOpen (signalDelay now sig.timestamp) maxDelayMs fallbackEnabled = .Pending) ∧
    (fallbackEnabled = false →
      decideOpen (signalDelay now sig.timestamp) maxDelayMs fallbackEnabled = .Skip) := by
  rw [ht]
  cases fallbackEnabled <;> simp [signalDelay, decideOpen, Delay.exceeds]

/-- Witness for C3: a signal with an unparseable timestamp is not executed
even with a huge threshold; with fallback disabled it is skipped. -/
theorem c3_unknown_timestamp_fail_safe_witness :
    decideOpen (signalDelay 1000 none) 1000000000 false ≠ .Execute ∧
    decideOpen (signalDelay 1000 none) 1000000000 false = .Skip := by
  have h := c3_unknown_timestamp_fail_safe ⟨1, .Buy, 1, none⟩ 1000 1000000000 false rfl
  exact ⟨h.1, h.2.2 rfl⟩

theorem findActivePending_removePending (st : EngineState) (slave : String) (ticket : Nat) :
    findActivePending (removePending st slave ticket) slave ticket = none := by
  unfold findActivePending removePending
  rw [List.find?_eq_none]
  intro r hr habs
  have hkey := (List.mem_filter.mp hr).2
  simp only [Bool.and_eq_true] at habs
  rw [habs.1.1, habs.1.2] at hkey
  simp at hkey

/-- C4: handling a Close for a master ticket closes the live position when
one exists; otherwise it cancels the active pending order record via the
broker cancel capability, removes the record, and never invokes the broker
close; otherwise it is a no-op; in every case the outcome is ok, never an
error. -/
theorem c4_close_fallback_semantics (st : EngineState) (slave : String) (ticket : Nat) :
    (∃ out, handleClose st slave ticket = .ok out) ∧
    (∀ p, findPosition st slave ticket = some p →
      handleClose st slave ticket
        = .ok (.ClosedLive, removePosition st slave ticket, [.closePosition p])) ∧
    (∀ r, findPosition st slave ticket = none →
        findActivePending st slave ticket = some r →
      handleClose st slave ticket
        = .ok (.CancelledPending, removePending st slave ticket, [.cancelPending r]) ∧
      findActivePending (removePending st slave ticket) slave ticket = none ∧
      ∀ p, BrokerOp.closePosition p ∉ [BrokerOp.cancelPending r]) ∧
    (findPosition st slave ticket = none → findActivePending st slave ticket = none →
      handleClose st slave ticket = .ok (.NoOp, st, [])) := by
  refine ⟨?_, ?_, ?_, ?_⟩
  · unfold handleClose
    rcases findPosition st slave ticket with _ | p
    · rcases findActivePending st slave ticket with _ | r
      · exact ⟨_, rfl⟩
      · exact ⟨_, rfl⟩
    · exact ⟨_, rfl⟩
  · intro p hp
    unfold handleClose
    rw [hp]
  · intro r hp hr
    refine ⟨by unfold handleClose; rw [hp, hr], findActivePending_removePending st slave ticket, ?_⟩
    intro p
    simp
  · intro hp hr
    unfold handleClose
    rw [hp, hr]

/-- Witness for C4: with one active pending record for ("S1", 12345) and no
live position, a Close cancels the pending order and removes the record. -/
theorem c4_close_fallback_semantics_witness :
    handleClose ⟨[], [⟨"S1", 12345, .BuyStop, 1, 0, .Active⟩]⟩ "S1" 12345
      = .ok (.CancelledPending,
             removePending ⟨[], [⟨"S1", 12345, .BuyStop, 1, 0, .Active⟩]⟩ "S1" 12345,
             [.cancelPending ⟨"S1", 12345, .BuyStop, 1, 0, .Active⟩]) ∧
    findActivePending
      (removePending ⟨[], [⟨"S1", 12345, .BuyStop, 1, 0, .Active⟩]⟩ "S1" 12345)
      "S1" 12345 = none := by
  have h := (c4_close_fallback_semantics
    ⟨[], [⟨"S1", 12345, .BuyStop, 1, 0, .Active⟩]⟩ "S1" 12345).2.2.1
    ⟨"S1", 12345, .BuyStop, 1, 0, .Active⟩ (by decide) (by decide)
  exact ⟨h.1, h.2.1⟩

theorem applyConfig_version_mono (st : Option SlaveConfig) (c : SlaveConfig) :
    appliedVersion st ≤ appliedVersion (applyConfig st c) := by
  unfold applyConfig
  split
  · rename_i h
    exact le_of_lt h
  · exact le_refl _

theorem applyConfigs_version_mono (l : List SlaveConfig) :
    ∀ st, appliedVersion st ≤ appliedVersion (applyConfigs st l) := by
  induction l with
  | nil => intro st; exact le_refl _
  | cons c l ih =>
    intro st
    have h1 := applyConfig_version_mono st c
    have h2 := ih (applyConfig st c)
    simp only [applyConfigs, List.foldl_cons] at *
    omega

theorem applyConfigs_stable (l : List SlaveConfig) :
    ∀ st, (∀ c ∈ l, c.configVersion ≤ appliedVersion st) → applyConfigs st l = st := by
  induction l with
  | nil => intro st _; rfl
  | cons c l ih =>
    intro st h
    have hc : applyConfig st c = st := by
      unfold applyConfig
      rw [if_neg (not_lt.mpr (h c (List.mem_cons_self c l)))]
    simp only [applyConfigs, List.foldl_cons, hc]
    exact ih st (fun c2 hc2 => h c2 (List.mem_cons_of_mem _ hc2))

theorem applyConfigs_converge (l : List SlaveConfig) :
    ∀ st c, c ∈ l → (∀ c2 ∈ l, c2 = c ∨ c2.configVersion < c.configVersion) →
    appliedVersion st < c.configVersion → applyConfigs st l = some c := by
  induction l with
  | nil =>
    intro st c h
    cases h
  | cons d l ih =>
    intro st c hmem hdom hlt
    rcases hdom d (List.mem_cons_self d l) with rfl | hdlt
    · have hd : applyConfig st d = some d := by
        unfold applyConfig
        rw [if_pos hlt]
      simp only [applyConfigs, List.foldl_cons, hd]
      apply applyConfigs_stable
      intro c2 h2
      rcases hdom c2 (List.mem_cons_of_mem _ h2) with rfl | hlt2
      · exact le_refl _
      · exact le_of_lt hlt2
    · have hcl : c ∈ l := by
        rcases List.mem_cons.mp hmem with rfl | h2
        · exact absurd hdlt (lt_irrefl _)
        · exact h2
      have hA : appliedVersion (applyConfig st d) < c.configVersion := by
        unfold applyConfig
        split
        · exact hdlt
        · exact hlt
      simp only [applyConfigs, List.foldl_cons]
      exact ih (applyConfig st d) c hcl
        (fun c2 h2 => hdom c2 (List.mem_cons_of_mem _ h2)) hA

/-- C5: a Config message whose config_version is not strictly greater than
the applied one is discarded; the applied version is non-decreasing over
any delivery sequence; and over any delivery order whose strictly highest
version belongs to message c (and exceeds the starting version), the
effective configuration converges to c. -/
theorem c5_config_version_convergence (st : Option SlaveConfig) (c : SlaveConfig)
    (l : List SlaveConfig) :
    (c.configVersion ≤ appliedVersion st → applyConfig st c = st) ∧
    appliedVersion st ≤ appliedVersion (applyConfig st c) ∧
    appliedVersion st ≤ appliedVersion (applyConfigs st l) ∧
    (c ∈ l → (∀ c2 ∈ l, c2 = c ∨ c2.configVersion < c.configVersion) →
      appliedVersion st < c.configVersion → applyConfigs st l = some c) := by
  refine ⟨?_, applyConfig_version_mono st c, applyConfigs_version_mono l st,
    applyConfigs_converge l st c⟩
  intro h
  unfold applyConfig
  rw [if_neg (not_lt.mpr h)]

/-- Witness for C5: scenario D of the spec: with versions 1 and 2 delivered
out of order (2 first, 1 second), the effective config remains version 2. -/
theorem c5_config_version_convergence_witness :
    applyConfigs none [⟨2, true, 1, false⟩, ⟨1, true, 1, false⟩]
      = some ⟨2, true, 1, false⟩ :=
  (c5_config_version_convergence none ⟨2, true, 1, false⟩
      [⟨2, true, 1, false⟩, ⟨1, true, 1, false⟩]).2.2.2
    (by decide) (by decide) (by decide)

/-- C6: decode after encode is the identity on every valid wire message of
every kind: Register, Unregister, Heartbeat, TradeSignal with action Open,
Modify or Close, and Config; every field of the message, including the
optional ones that are present, is recovered with its original value. -/
theorem c6_wire_roundtrip (m : WireMessage) (h : wfMessage m = true) :
    decodeMessage (encodeMessage m) = some m :=
  decodeMessage_encodeMessage m h

/-- Witness for C6: the round trip on the full Open trade signal of the
tests, with every optional field present. -/
theorem c6_wire_roundtrip_witness :
    wfMessage (.tradeSignal fullOpenExample) = true ∧
    decodeMessage (encodeMessage (.tradeSignal fullOpenExample))
      = some (.tradeSignal fullOpenExample) :=
  ⟨by decide, c6_wire_roundtrip (.tradeSignal fullOpenExample) (by decide)⟩

set_option maxRecDepth 100000 in
/-- C9: absent optional fields are omitted from the wire form: the minimal
Close signal of the tests carries only its 4 required fields while the full
Open signal carries all 12, and the encoded minimal Close is strictly
smaller than the encoded full Open. -/
theorem c9_minimal_close_strictly_smaller :
    (tradeSignalKVs minimalCloseExample).length = 4 ∧
    (tradeSignalKVs fullOpenExample).length = 12 ∧
    (encodeMessage (.tradeSignal minimalCloseExample)).length
      < (encodeMessage (.tradeSignal fullOpenExample)).length := by
  refine ⟨by decide, by decide, by decide⟩

/-- C7 counterexample: under the channel's initial-run topic matching, a
subscriber of topic "A" (byte 65) does receive a message published under
the different topic "AB" (bytes 65 66), so the claim as stated, for every
different topic, is false. -/
theorem c7_exact_topic_counterexample :
    ([65, 66] : List Nat) ≠ [65] ∧ deliveredTo [[65]] ⟨[65, 66], []⟩ = true := by
  exact ⟨by decide, by decide⟩

/-- C7 (amended): a subscriber whose subscription set contains only topic A
never receives a message published under a topic that does not extend A,
in particular never one under a different topic of the same length. -/
theorem c7_topic_isolation_amended (sub : List Nat) (published : List PubMessage)
    (m : PubMessage) (h : matchesTopic sub m.topic = false) :
    m ∉ receivedBy [sub] published := by
  intro hmem
  have h2 := (List.mem_filter.mp hmem).2
  simp only [deliveredTo, List.any_cons, List.any_nil, Bool.or_false] at h2
  rw [h] at h2
  cases h2

/-- Witness for C7 (amended): a subscriber of topic "A" (byte 65) does not
receive the message published under topic "B" (byte 66). -/
theorem c7_topic_isolation_amended_witness :
    matchesTopic [65] [66] = false ∧
    (⟨[66], []⟩ : PubMessage) ∉ receivedBy [[65]] [⟨[66], []⟩] :=
  ⟨by decide, c7_topic_isolation_amended [65] [⟨[66], []⟩] ⟨[66], []⟩ (by decide)⟩

/-- C8: a Heartbeat for an account that was never registered fails with
UnknownAccount and leaves the connection table unchanged; for a registered
account it succeeds and updates exactly balance, equity, open_positions and
last_heartbeat of that account, leaving every other account's entry in the
table untouched. -/
theorem c8_heartbeat_unknown_account (reg : Registry) (msg : HeartbeatFields) :
    (lookupConn reg msg.accountId = none →
      heartbeatStep reg msg = (some .UnknownAccount, reg)) ∧
    (∀ c, lookupConn reg msg.accountId = some c →
      (heartbeatStep reg msg).1 = none ∧
      lookupConn (heartbeatStep reg msg).2 msg.accountId = some (applyHeartbeat msg c) ∧
      ∀ c2 ∈ reg, c2.accountId ≠ msg.accountId → c2 ∈ (heartbeatStep reg msg).2) := by
  constructor
  · intro h
    unfold heartbeatStep
    rw [h]
  · intro c hc
    have hstep : heartbeatStep reg msg =
        (none, reg.map (fun c2 =>
          if c2.accountId == msg.accountId then applyHeartbeat msg c2 else c2)) := by
      unfold heartbeatStep
      rw [hc]
    refine ⟨by rw [hstep], ?_, ?_⟩
    · rw [hstep]
      unfold lookupConn at hc ⊢
      rw [List.find?_map]
      have hpred : ((fun c2 : Connection => c2.accountId == msg.accountId) ∘
          (fun c2 : Connection =>
            if c2.accountId == msg.accountId then applyHeartbeat msg c2 else c2))
          = (fun c2 : Connection => c2.accountId == msg.accountId) := by
        funext c2
        by_cases h2 : c2.accountId == msg.accountId
        · simp [Function.comp, h2, applyHeartbeat]
        · simp [Function.comp, h2]
      rw [hpred, hc]
      have hceq : (c.accountId == msg.accountId) = true := by
        have := List.find?_some hc
        exact this
      rw [Option.map_some', if_pos hceq]
    · intro c2 hc2 hne
      rw [hstep]
      refine List.mem_map.mpr ⟨c2, hc2, ?_⟩
      have : (c2.accountId == msg.accountId) = false := by
        simpa using hne
      simp [this]

/-- Witness for C8: a Heartbeat against the empty connection table is
rejected with UnknownAccount and the table stays empty. -/
theorem c8_heartbeat_unknown_account_witness :
    heartbeatStep [] ⟨"A1", 1, 1, 0, 0⟩ = (some .UnknownAccount, []) :=
  (c8_heartbeat_unknown_account [] ⟨"A1", 1, 1, 0, 0⟩).1 rfl

/-- C10: the empty subscription matches every topic under the channel's
initial-run matching: a subscriber registered with the empty-string
subscription receives every published message, a subscribe-to-all mode. -/
theorem c10_empty_subscription_receives_all (published : List PubMessage) :
    (∀ m : PubMessage, deliveredTo [[]] m = true) ∧
    receivedBy [[]] published = published := by
  have hall : ∀ m : PubMessage, deliveredTo [[]] m = true := by
    intro m
    simp [deliveredTo, matchesTopic]
  refine ⟨hall, ?_⟩
  unfold receivedBy
  exact List.filter_eq_self.mpr (fun m _ => hall m)

end SankeyCopier
